import Mathlib

/-!
Verification development for the TrueForm cognitive-model platform
(`.form` documents, validator, compiler, execution engine).

The definitions below are a shallow embedding of the TypeScript sources:
`FormValidator` / `FormSchema` / `FormCompiler` (src/parser) and
`FormExecutor` / `FormulaEvaluator` (the execution engine).  JavaScript
runtime values are modelled by `Value`, JS `Map`s by insertion-ordered
association lists, and wall-clock time (`Date.now()`) by an explicit
oracle `World : ℕ → ℕ` consumed one tick per call.
-/

set_option maxHeartbeats 1600000

namespace TrueForm

/-! ## Kernel-computable rationals

JS numbers are modelled by rationals.  Mathlib's `ℚ` normalizes through
`Nat.gcd`, which is defined by well-founded recursion and is therefore
opaque to kernel reduction, so concrete executions could not be settled
by `decide`.  `QV` is a rational in lowest terms with a fuelled Euclid
normalization; comparisons go through `ℤ` cross-multiplication.  All
values the engine computes are produced by `qvMk` and canonical; a zero
denominator (JS `NaN`/`Infinity` from dividing by zero) never arises
because every division in the sources is guarded, and the operations are
total junk-in/junk-out on such values. -/

/-- Euclid's algorithm with explicit fuel (`fuel > a` always suffices). -/
def gcdFuel : ℕ → ℕ → ℕ → ℕ
  | 0, a, b => a + b
  | fuel + 1, a, b => if a = 0 then b else gcdFuel fuel (b % a) a

structure QV where
  num : ℤ
  den : ℕ
deriving Repr, DecidableEq

/-- Build the canonical representative of `n / d`. -/
def qvMk (n : ℤ) (d : ℕ) : QV :=
  let g := gcdFuel (n.natAbs + 1) n.natAbs d
  if g = 0 then { num := 0, den := 1 }
  else { num := n / (g : ℤ), den := d / g }

def qvInt (n : ℤ) : QV := { num := n, den := 1 }

def qvOfNat (n : ℕ) : QV := { num := (n : ℤ), den := 1 }

def qvAdd (a b : QV) : QV := qvMk (a.num * b.den + b.num * a.den) (a.den * b.den)

def qvMul (a b : QV) : QV := qvMk (a.num * b.num) (a.den * b.den)

/-- Division (callers in the sources guard against zero divisors). -/
def qvDiv (a b : QV) : QV :=
  let n := a.num * (b.den : ℤ)
  let d := (a.den : ℤ) * b.num
  if d < 0 then qvMk (-n) (-d).toNat else qvMk n d.toNat

def qvLe (a b : QV) : Bool := a.num * (b.den : ℤ) ≤ b.num * (a.den : ℤ)

def qvLt (a b : QV) : Bool := a.num * (b.den : ℤ) < b.num * (a.den : ℤ)

def qvCompare (a b : QV) : Ordering := compare (a.num * (b.den : ℤ)) (b.num * (a.den : ℤ))

/-- Value equality with the integer `n` (`=== n` in JS). -/
def qvEqInt (q : QV) (n : ℤ) : Bool := q.num = n * (q.den : ℤ) && q.den ≠ 0

def qvNeg (a : QV) : QV := { num := -a.num, den := a.den }

def qvFloor (q : QV) : ℤ := Int.fdiv q.num q.den

/-- JSON-like runtime value (a JS value as far as the engine manipulates
them).  `undef` is JavaScript `undefined` (distinct from `null`); `nan` is
the floating-point NaN produced by failed numeric coercions.  Numbers are
modelled as rationals.  Composite JSON values (arrays / objects) are not
modelled: the engine only ever inspects them through `typeof` and
canonical-JSON equality, and every claim under verification operates on
primitive values. -/
inductive Value where
  | null : Value
  | undef : Value
  | nan : Value
  | bool : Bool → Value
  | num : QV → Value
  | str : String → Value
deriving Repr, DecidableEq

/-- JS `typeof`. -/
def jsTypeof : Value → String
  | .null => "object"
  | .undef => "undefined"
  | .nan => "number"
  | .bool _ => "boolean"
  | .num _ => "number"
  | .str _ => "string"

/-- JS truthiness (`Boolean(v)`). -/
def truthy : Value → Bool
  | .null => false
  | .undef => false
  | .nan => false
  | .bool b => b
  | .num q => q.num != 0
  | .str s => s != ""

/-- JS strict equality `===` on modelled values: structural on primitives,
`NaN` never equal to itself.  Composites compare by reference in JS, which
a pure model cannot track, so they are conservatively unequal here;
`valuesEqual` recovers equality of structurally equal composites through
its JSON branch, giving the same overall verdict as the source. -/
def jsTripleEq : Value → Value → Bool
  | .null, .null => true
  | .undef, .undef => true
  | .bool a, .bool b => a == b
  | .num a, .num b => a == b
  | .str a, .str b => a == b
  | _, _ => false

/-- Rendering of a rational used by the model of `JSON.stringify`.  JS
renders floats in decimal; the model only needs an injective rendering,
so non-integers are shown as numerator/denominator. -/
def renderQ (q : QV) : String :=
  if q.den = 1 then toString q.num else toString q.num ++ "/" ++ toString q.den

/-- Model of `JSON.stringify` (`none` for `undefined`, whose stringify is
undefined in JS).  String escaping is not modelled; no claim depends on
the exact rendering, only on it separating the values the engine
compares. -/
def stringifyV : Value → Option String
  | .undef => none
  | .null => some "null"
  | .nan => some "null"
  | .bool b => some (cond b "true" "false")
  | .num q => some (renderQ q)
  | .str s => some ("\x22" ++ s ++ "\x22")

/-- `FormExecutor.valuesEqual`: `a === b`, else a `typeof` gate, then
canonical-JSON comparison for non-null objects. -/
def valuesEqual (a b : Value) : Bool :=
  if jsTripleEq a b then true
  else if jsTypeof a != jsTypeof b then false
  else if jsTypeof a == "object" && a != Value.null && b != Value.null then
    stringifyV a == stringifyV b
  else false

/-! ## Insertion-ordered association lists (JS `Map`) -/

/-- `Map.get`. -/
def alGet {α : Type} (m : List (String × α)) (k : String) : Option α :=
  match m with
  | [] => none
  | (k', v') :: rest => if k' = k then some v' else alGet rest k

/-- `Map.set`: replace in place when the key exists (JS keeps the original
insertion position), else append. -/
def alSet {α : Type} (m : List (String × α)) (k : String) (v : α) : List (String × α) :=
  match m with
  | [] => [(k, v)]
  | (k', v') :: rest => if k' = k then (k, v) :: rest else (k', v') :: alSet rest k v

/-- `Map.has`. -/
def alHas {α : Type} (m : List (String × α)) (k : String) : Bool :=
  (alGet m k).isSome

/-- `Map.keys` in insertion order. -/
def alKeys {α : Type} (m : List (String × α)) : List String :=
  m.map Prod.fst

/-! ## Small string utilities used by the sources -/

def charsStartWith : List Char → List Char → Bool
  | [], _ => true
  | _ :: _, [] => false
  | a :: as, b :: bs => a == b && charsStartWith as bs

def charsContain (pat : List Char) : List Char → Bool
  | [] => pat.isEmpty
  | c :: rest => charsStartWith pat (c :: rest) || charsContain pat rest

/-- JS `String.prototype.includes`. -/
def containsSubstr (s pat : String) : Bool :=
  charsContain pat.toList s.toList

/-- Stable insertion into a list: `x` goes before the first element `y`
with `le x y`. -/
def insertBy {α : Type} (le : α → α → Bool) (x : α) : List α → List α
  | [] => [x]
  | y :: ys => if le x y then x :: y :: ys else y :: insertBy le x ys

/-- Stable sort (model of JS `Array.prototype.sort`, which is required to
be stable; any stable sort is extensionally the same function of the
comparator). `le x y` means `x` may stay before `y`. -/
def sortBy {α : Type} (le : α → α → Bool) : List α → List α
  | [] => []
  | x :: xs => insertBy le x (sortBy le xs)

/-! ## Document model (`FormTypes.ts` / `FormSchema.ts`)

Node and relation types, execution modes and node states are closed enums
in the JSON schema, so they are modelled as inductives; identifiers,
versions and timestamps are strings whose shape the (modelled) schema step
checks.  The open `parameters` mapping is modelled as a structured record
holding exactly the keys the engine reads. -/

inductive NodeType where
  | concept | condition | action | event | formula | custom
deriving Repr, DecidableEq

inductive NodeState where
  | active | inactive | pending | completed | failed
deriving Repr, DecidableEq

inductive RelationType where
  | causes | triggers | blocks | contains | depends_on | influences | custom
deriving Repr, DecidableEq

inductive ExecutionMode where
  | sequential | parallel | adaptive
deriving Repr, DecidableEq

/-- Structured view of the open `data.parameters` mapping, restricted to
the keys the validator and executor actually read. -/
structure Params where
  expression : Option String := none
  formula : Option String := none
  logic : Option String := none
  operation : Option String := none
  inputs : Option (List String) := none
  triggerType : Option String := none
  interval : Option ℕ := none
  lastTrigger : Option ℕ := none
  watchedNode : Option String := none
  triggerValue : Option Value := none
  transform : Option String := none
  input : Option Value := none
  timeout : Option ℕ := none
  memoryLimit : Option ℕ := none
  allowedFunctions : Option (List String) := none
deriving Repr, DecidableEq

structure NodeData where
  value : Option Value := none
  confidence : Option QV := none
  weight : Option QV := none
  parameters : Option Params := none
  state : Option NodeState := none
deriving Repr, DecidableEq

structure Position where
  x : QV
  y : QV
deriving Repr, DecidableEq

structure FormNode where
  id : String
  type : NodeType
  label : String
  description : Option String := none
  data : NodeData := {}
  position : Option Position := none
  custom_type : Option String := none
  extensions : Option (List (String × Value)) := none
deriving Repr, DecidableEq

structure RelationCondition where
  field : String
  operator : String
  value : Value
deriving Repr, DecidableEq

structure FormRelation where
  id : String
  type : RelationType
  source : String
  target : String
  label : Option String := none
  strength : Option QV := none
  bidirectional : Option Bool := none
  conditions : Option (List RelationCondition) := none
  custom_type : Option String := none
  extensions : Option (List (String × Value)) := none
deriving Repr, DecidableEq

structure FormMetadata where
  id : String
  name : String
  description : Option String := none
  version : String
  created_at : String
  updated_at : String
  author : Option String := none
  tags : Option (List String) := none
  dependencies : Option (List (String × String)) := none
  extensions : Option (List (String × Value)) := none
deriving Repr, DecidableEq

structure ExecutionConfig where
  entry_points : Option (List String) := none
  exit_points : Option (List String) := none
  max_iterations : Option ℕ := none
  timeout : Option ℕ := none
  mode : Option ExecutionMode := none
deriving Repr, DecidableEq

structure FormFile where
  metadata : FormMetadata
  nodes : List FormNode
  relations : List FormRelation
  execution : Option ExecutionConfig := none
  extensions : Option (List (String × Value)) := none
deriving Repr, DecidableEq

/-! ## Validator (`FormValidator.ts`) -/

inductive VErrorType where
  | schema | reference | cycle | logic
deriving Repr, DecidableEq

inductive Severity where
  | error | warning
deriving Repr, DecidableEq

structure ValidationError where
  type : VErrorType
  message : String
  path : Option String := none
  severity : Severity
  nodeId : Option String := none
  relationId : Option String := none
deriving Repr, DecidableEq

structure ValidationWarning where
  type : String
  message : String
  suggestion : Option String := none
deriving Repr, DecidableEq

structure ValidationMetadata where
  nodeCount : ℕ
  relationCount : ℕ
  entryPoints : List String
  exitPoints : List String
deriving Repr, DecidableEq

structure ValidationResult where
  valid : Bool
  errors : List ValidationError
  warnings : List ValidationWarning
  metadata : ValidationMetadata
deriving Repr, DecidableEq

/-- The identifier pattern of the JSON schema. -/
def idPattern (s : String) : Bool :=
  s != "" && s.toList.all (fun c => c.isAlphanum || c = '_' || c = '-')

/-- Split a character list at dots (`String.splitOn "."`). -/
def splitDots : List Char → List (List Char)
  | [] => [[]]
  | c :: rest =>
    let r := splitDots rest
    if c = '.' then [] :: r
    else
      match r with
      | [] => [[c]]
      | g :: gs => (c :: g) :: gs

/-- The semantic-version pattern of the JSON schema. -/
def versionPattern (s : String) : Bool :=
  match splitDots s.toList with
  | [a, b, c] => !a.isEmpty && !b.isEmpty && !c.isEmpty &&
      a.all Char.isDigit && b.all Char.isDigit && c.all Char.isDigit
  | _ => false

/-- Simplified model of the `date-time` format check performed by
`ajv-formats`: the leading `YYYY-MM-DDThh:mm:ss` shape is checked, the
trailing zone designator is not . -/
def isDateTimeLike (s : String) : Bool :=
  match s.toList with
  | y1 :: y2 :: y3 :: y4 :: '-' :: m1 :: m2 :: '-' :: d1 :: d2 :: 'T' ::
      h1 :: h2 :: ':' :: i1 :: i2 :: ':' :: s1 :: s2 :: _ =>
    [y1, y2, y3, y4, m1, m2, d1, d2, h1, h2, i1, i2, s1, s2].all Char.isDigit
  | _ => false

def allowedOperators : List String :=
  ["eq", "neq", "gt", "lt", "gte", "lte", "contains"]

def schemaError (msg : String) : ValidationError :=
  { type := .schema, message := msg, severity := .error }

/-- Modelled from the AJV JSON-schema validation step (`FormSchema`): the
constraints of the schema that the typed embedding does not already
enforce (identifier and version patterns, timestamp format, numeric
bounds, non-empty node list, condition-operator enum). -/
def schemaErrors (form : FormFile) : List ValidationError :=
  (if idPattern form.metadata.id then [] else [schemaError "metadata id pattern"]) ++
  (if versionPattern form.metadata.version then [] else [schemaError "metadata version pattern"]) ++
  (if isDateTimeLike form.metadata.created_at then [] else [schemaError "created_at format"]) ++
  (if isDateTimeLike form.metadata.updated_at then [] else [schemaError "updated_at format"]) ++
  (if form.nodes.isEmpty then [schemaError "nodes minItems"] else []) ++
  (form.nodes.foldr (fun node acc =>
    (if idPattern node.id then [] else [schemaError "node id pattern"]) ++
    (match node.data.confidence with
     | some c => if qvLe (qvInt 0) c && qvLe c (qvInt 1) then [] else [schemaError "confidence bounds"]
     | none => []) ++ acc) []) ++
  (form.relations.foldr (fun rel acc =>
    (if idPattern rel.id then [] else [schemaError "relation id pattern"]) ++
    (match rel.strength with
     | some st => if qvLe (qvInt 0) st && qvLe st (qvInt 1) then [] else [schemaError "strength bounds"]
     | none => []) ++
    ((rel.conditions.getD []).foldr (fun c acc2 =>
      (if c.operator ∈ allowedOperators then [] else [schemaError "condition operator enum"]) ++ acc2) []) ++
    acc) []) ++
  (match form.execution with
   | some ex =>
     (match ex.max_iterations with
      | some n => if n ≥ 1 then [] else [schemaError "max_iterations minimum"]
      | none => []) ++
     (match ex.timeout with
      | some t => if t ≥ 1 then [] else [schemaError "timeout minimum"]
      | none => [])
   | none => [])

/-- A `reference` error attached to a node id. -/
def refErrorNode (msg nid : String) : ValidationError :=
  { type := .reference, message := msg, severity := .error, nodeId := some nid }

/-- A `reference` error attached to a relation id. -/
def refErrorRel (msg rid : String) : ValidationError :=
  { type := .reference, message := msg, severity := .error, relationId := some rid }

/-- A `reference` error with no id attached. -/
def refErrorPlain (msg : String) : ValidationError :=
  { type := .reference, message := msg, severity := .error }

/-- A `logic` error attached to a node id. -/
def logicErrorNode (msg nid : String) : ValidationError :=
  { type := .logic, message := msg, severity := .error, nodeId := some nid }

/-- A `logic` error attached to a relation id. -/
def logicErrorRel (msg rid : String) : ValidationError :=
  { type := .logic, message := msg, severity := .error, relationId := some rid }

/-- A `cycle` error. -/
def cycleError (msg : String) : ValidationError :=
  { type := .cycle, message := msg, severity := .error }

/-- `FormValidator.validateReferences`. -/
def validateReferences (form : FormFile) : List ValidationError :=
  let nodeIds := form.nodes.map FormNode.id
  let dupNodeErrors :=
    (form.nodes.foldl (fun (st : List String × List ValidationError) node =>
      let seen := st.1
      let errs := st.2
      if node.id ∈ seen then
        (seen ++ [node.id], errs ++ [refErrorNode ("Duplicate node ID: " ++ node.id) node.id])
      else (seen ++ [node.id], errs)) ([], [])).2
  let dupRelErrors :=
    (form.relations.foldl (fun (st : List String × List ValidationError) rel =>
      let seen := st.1
      let errs := st.2
      if rel.id ∈ seen then
        (seen ++ [rel.id], errs ++ [refErrorRel ("Duplicate relation ID: " ++ rel.id) rel.id])
      else (seen ++ [rel.id], errs)) ([], [])).2
  let relRefErrors := form.relations.foldr (fun rel acc =>
    (if rel.source ∈ nodeIds then [] else
      [refErrorRel ("Relation " ++ rel.id ++ " references non-existent source node: " ++ rel.source) rel.id]) ++
    (if rel.target ∈ nodeIds then [] else
      [refErrorRel ("Relation " ++ rel.id ++ " references non-existent target node: " ++ rel.target) rel.id]) ++
    acc) []
  let entryErrors := ((form.execution.bind ExecutionConfig.entry_points).getD []).foldr
    (fun nodeId acc =>
      (if nodeId ∈ nodeIds then [] else
        [refErrorPlain ("Execution entry point references non-existent node: " ++ nodeId)]) ++ acc) []
  let exitErrors := ((form.execution.bind ExecutionConfig.exit_points).getD []).foldr
    (fun nodeId acc =>
      (if nodeId ∈ nodeIds then [] else
        [refErrorPlain ("Execution exit point references non-existent node: " ++ nodeId)]) ++ acc) []
  dupNodeErrors ++ dupRelErrors ++ relRefErrors ++ entryErrors ++ exitErrors

/-- Adjacency list over the dependency-type relations
(`depends_on`/`causes`/`triggers`) built by `FormValidator.detectCycles`. -/
def cycleAdjacency (form : FormFile) : List (String × List String) :=
  let init := form.nodes.foldl (fun acc node => alSet acc node.id []) []
  form.relations.foldl (fun acc rel =>
    if rel.type = .depends_on ∨ rel.type = .causes ∨ rel.type = .triggers then
      alSet acc rel.source ((alGet acc rel.source).getD [] ++ [rel.target])
    else acc) init

/-- The recursive DFS of `FormValidator.detectCycles`.  `path` is the
current recursion stack (the source keeps this list and a mirror
`recursionStack` set in sync, so one list suffices); `fuel` bounds the
recursion depth and is always supplied larger than the number of ids, so
the exhaustion branch is unreachable. -/
def detectCyclesDfs (adj : List (String × List String)) :
    ℕ → String → List String → List String → List (List String) →
    List String × List (List String)
  | 0, _, _, visited, cycles => (visited, cycles)
  | fuel + 1, nodeId, path, visited, cycles =>
    let visited := nodeId :: visited
    let path := path ++ [nodeId]
    let neighbors := (alGet adj nodeId).getD []
    neighbors.foldl (fun (st : List String × List (List String)) neighbor =>
      let (vis, cyc) := st
      if neighbor ∈ vis then
        if neighbor ∈ path then
          let cycleStart := path.indexOf neighbor
          (vis, cyc ++ [path.drop cycleStart ++ [neighbor]])
        else (vis, cyc)
      else detectCyclesDfs adj fuel neighbor path vis cyc)
      (visited, cycles)

/-- `FormValidator.detectCycles`. -/
def detectCycles (form : FormFile) : List (List String) :=
  let adj := cycleAdjacency form
  let fuel := form.nodes.length + 2 * form.relations.length + 1
  (form.nodes.foldl (fun (st : List String × List (List String)) node =>
    if node.id ∈ st.1 then st
    else detectCyclesDfs adj fuel node.id [] st.1 st.2) ([], [])).2

def dangerousFunctions : List String :=
  ["eval", "exec", "import", "require", "process", "fs"]

/-- Parenthesis scan of `FormValidator.validateFormulaSyntax`: returns the
final counter and whether the loop broke on a negative counter. -/
def parenScan : List Char → ℤ → ℤ × Bool
  | [], n => (n, false)
  | c :: rest, n =>
    let n' := if c = '(' then n + 1 else if c = ')' then n - 1 else n
    if n' < 0 then (n', true) else parenScan rest n'

def unbalancedError (nodeId : String) : ValidationError :=
  { type := .logic, message := "Unbalanced parentheses in formula",
    severity := .error, nodeId := some nodeId }

/-- `FormValidator.validateFormulaSyntax`. -/
def validateFormulaSyntax (formula : String) (nodeId : String) : List ValidationError :=
  let scan := parenScan formula.toList 0
  (if scan.2 then [unbalancedError nodeId] else []) ++
  (if scan.1 ≠ 0 then [unbalancedError nodeId] else []) ++
  dangerousFunctions.foldr (fun func acc =>
    (if containsSubstr formula func then
      [logicErrorNode ("Potentially dangerous function '" ++ func ++ "' detected in formula") nodeId]
     else []) ++ acc) []

/-- `FormValidator.validateLogicalConsistency`.  The formula check fires
only on `formula` nodes whose `data.value` is truthy, as in the source;
a truthy non-string value would make the JS iterate a non-iterable and
throw, which is outside the model (all checked documents carry string
formula values). -/
def validateLogicalConsistency (form : FormFile) : List ValidationError :=
  let cycleErrors := (detectCycles form).map (fun cycle =>
    cycleError ("Circular dependency detected: " ++ String.intercalate " -> " cycle))
  let formulaErrors := form.nodes.foldr (fun node acc =>
    (if node.type = .formula then
      match node.data.value with
      | some v =>
        if truthy v then
          match v with
          | .str s => validateFormulaSyntax s node.id
          | _ => []
        else []
      | none => []
     else []) ++ acc) []
  let operatorErrors := form.relations.foldr (fun rel acc =>
    ((rel.conditions.getD []).foldr (fun c acc2 =>
      (if c.operator ∈ allowedOperators then [] else
        [logicErrorRel ("Invalid condition operator: " ++ c.operator) rel.id]) ++ acc2) []) ++ acc) []
  cycleErrors ++ formulaErrors ++ operatorErrors

/-- Full-relation adjacency used by `FormValidator.findLongestChains`. -/
def chainAdjacency (form : FormFile) : List (String × List String) :=
  let init := form.nodes.foldl (fun acc node => alSet acc node.id []) []
  form.relations.foldl (fun acc rel =>
    alSet acc rel.source ((alGet acc rel.source).getD [] ++ [rel.target])) init

/-- The chain-enumerating DFS of `FormValidator.findLongestChains`. -/
def chainsDfs (adj : List (String × List String)) :
    ℕ → String → List String → List (List String)
  | 0, _, _ => []
  | fuel + 1, nodeId, currentChain =>
    let newChain := currentChain ++ [nodeId]
    let neighbors := (alGet adj nodeId).getD []
    if neighbors = [] then [newChain]
    else neighbors.foldl (fun acc neighbor =>
      if neighbor ∈ currentChain then acc
      else acc ++ chainsDfs adj fuel neighbor newChain) []

/-- `FormValidator.findLongestChains`. -/
def findLongestChains (form : FormFile) : List (List String) :=
  let adj := chainAdjacency form
  let fuel := form.nodes.length + 2 * form.relations.length + 2
  let chains := form.nodes.foldr (fun node acc =>
    (if (form.relations.filter (fun r => r.target = node.id)).length = 0 then
      chainsDfs adj fuel node.id []
     else []) ++ acc) []
  (sortBy (fun a b => a.length ≥ b.length) chains).take 5

/-- Warning constructor. -/
def mkWarning (t msg sug : String) : ValidationWarning :=
  { type := t, message := msg, suggestion := some sug }

/-- `FormValidator.generateWarnings`. -/
def generateWarnings (form : FormFile) : List ValidationWarning :=
  let lowConfidence := form.nodes.foldr (fun node acc =>
    (match node.data.confidence with
     | some c =>
       if qvLt c (qvMk 3 10) then
         [mkWarning "best_practice"
           ("Node " ++ node.id ++ " has very low confidence (" ++ renderQ c ++ ")")
           "Consider reviewing the node logic or increasing confidence"]
       else []
     | none => []) ++ acc) []
  let longChains := (findLongestChains form).foldr (fun chain acc =>
    (if chain.length > 10 then
      [mkWarning "performance"
        ("Long relation chain detected (" ++ toString chain.length ++ " nodes): " ++
          String.intercalate " -> " chain)
        "Consider breaking down into smaller sub-graphs"]
     else []) ++ acc) []
  let connected := form.relations.foldr (fun rel acc => rel.source :: rel.target :: acc) []
  let isolated := form.nodes.foldr (fun node acc =>
    (if node.id ∈ connected then [] else
      [mkWarning "best_practice" ("Node " ++ node.id ++ " is isolated (no relations)")
        "Consider connecting to other nodes or removing if unused"]) ++ acc) []
  lowConfidence ++ longChains ++ isolated

/-- `FormValidator.extractMetadata`. -/
def extractMetadata (form : FormFile) : ValidationMetadata :=
  { nodeCount := form.nodes.length
    relationCount := form.relations.length
    entryPoints := (form.execution.bind ExecutionConfig.entry_points).getD []
    exitPoints := (form.execution.bind ExecutionConfig.exit_points).getD [] }

/-- `FormValidator.extractBasicMetadata`. -/
def extractBasicMetadata (form : FormFile) : ValidationMetadata :=
  { nodeCount := form.nodes.length
    relationCount := form.relations.length
    entryPoints := []
    exitPoints := [] }

/-- `FormValidator.validate`: schema step (early return), then reference
and logical-consistency errors, then warnings; valid iff no error of
severity `error`. -/
def validate (form : FormFile) : ValidationResult :=
  let schemaErrs := schemaErrors form
  if schemaErrs ≠ [] then
    { valid := false, errors := schemaErrs, warnings := [],
      metadata := extractBasicMetadata form }
  else
    let errors := validateReferences form ++ validateLogicalConsistency form
    { valid := (errors.filter (fun e => e.severity = .error)).isEmpty
      errors := errors
      warnings := generateWarnings form
      metadata := extractMetadata form }

/-! ## Compiler (`FormCompiler.js`) -/

structure Complexity where
  maxDepth : ℕ
  avgBranching : QV
  cycleCount : ℕ
deriving Repr, DecidableEq

structure CompilationInfo where
  timestamp : ℕ
  nodeCount : ℕ
  relationCount : ℕ
  complexity : Complexity
deriving Repr, DecidableEq

structure OptimizationInfo where
  type : String
  applied : Bool
  timestamp : ℕ
deriving Repr, DecidableEq

/-- Structured view of the compiled graph's open `extensions` mapping:
user-supplied entries are carried through untouched, and the
`compilation` / `optimization` records written by the compiler are typed.
Timestamps are clock readings (the source stores ISO strings; only their
identity matters to the claims). -/
structure GraphExtensions where
  user : List (String × Value) := []
  compilation : Option CompilationInfo := none
  optimization : Option OptimizationInfo := none
deriving Repr, DecidableEq

/-- Execution configuration after compilation filled every field. -/
structure CompiledExecution where
  entry_points : List String
  exit_points : List String
  max_iterations : ℕ
  timeout : ℕ
  mode : ExecutionMode
deriving Repr, DecidableEq

/-- Compiled graph (`FormGraph` in `FormTypes.ts`): id→node and
id→relation maps plus forward/reverse adjacency, all as insertion-ordered
association lists.  The source stores custom node evaluators (JS
functions) inside `extensions`; being non-serializable code they are
modelled as a separate executor argument instead. -/
structure FormGraph where
  metadata : FormMetadata
  nodes : List (String × FormNode)
  relations : List (String × FormRelation)
  adjacencyList : List (String × List String)
  reverseAdjacencyList : List (String × List String)
  execution : CompiledExecution
  extensions : GraphExtensions
deriving Repr, DecidableEq

/-- JS numeric falsiness (`!x` on an optional number): `undefined` and `0`
are falsy. -/
def jsFalsyNum : Option QV → Bool
  | none => true
  | some q => q.num == 0

/-- The node-default pass of `FormCompiler.compile`: note the `!` guards,
under which an explicit `confidence` or `weight` of `0` is replaced. -/
def compileNodeDefaults (node : FormNode) : FormNode :=
  let d := node.data
  let d := if jsFalsyNum d.confidence then { d with confidence := some (qvInt 1) } else d
  let d := if jsFalsyNum d.weight then { d with weight := some (qvInt 1) } else d
  let d := if d.state.isNone then { d with state := some .active } else d
  { node with data := d }

/-- The relation-default pass of `FormCompiler.compile`: these use
`=== undefined` guards, so explicit `0` / `false` are preserved. -/
def compileRelationDefaults (rel : FormRelation) : FormRelation :=
  let rel := if rel.strength.isNone then { rel with strength := some (qvInt 1) } else rel
  if rel.bidirectional.isNone then { rel with bidirectional := some false } else rel

/-- `FormCompiler.buildAdjacencyLists`: forward and reverse adjacency;
bidirectional relations contribute the reverse direction to both. -/
def buildAdjacencyLists (relations : List FormRelation) :
    List (String × List String) × List (String × List String) :=
  relations.foldl (fun acc rel =>
    let adjacency := alSet acc.1 rel.source ((alGet acc.1 rel.source).getD [] ++ [rel.target])
    let reverse := alSet acc.2 rel.target ((alGet acc.2 rel.target).getD [] ++ [rel.source])
    if rel.bidirectional.getD false then
      (alSet adjacency rel.target ((alGet adjacency rel.target).getD [] ++ [rel.source]),
       alSet reverse rel.source ((alGet reverse rel.source).getD [] ++ [rel.target]))
    else (adjacency, reverse)) ([], [])

/-- `FormCompiler.inferEntryPoints`. -/
def inferEntryPoints (nodes : List FormNode)
    (reverseAdjacencyList : List (String × List String)) : List String :=
  let entryPoints := nodes.foldr (fun node acc =>
    let incoming := (alGet reverseAdjacencyList node.id).getD []
    if incoming.length = 0 ∨ node.type = .event ∨ node.data.state = some .active then
      node.id :: acc
    else acc) []
  if entryPoints.isEmpty then
    match nodes with
    | n :: _ => [n.id]
    | [] => []
  else entryPoints

/-- `FormCompiler.inferExitPoints`. -/
def inferExitPoints (nodes : List FormNode)
    (adjacencyList : List (String × List String)) : List String :=
  nodes.foldr (fun node acc =>
    let outgoing := (alGet adjacencyList node.id).getD []
    if outgoing.length = 0 ∨ (node.type = .action ∧ outgoing.length ≤ 1) then
      node.id :: acc
    else acc) []

/-- The BFS worker of `FormCompiler.calculateMaxDepth`: one start node,
explicit queue, local visited set.  Fuel is supplied above the number of
possible queue entries, making the exhaustion branch unreachable. -/
def bfsDepth (adj : List (String × List String)) :
    ℕ → List (String × ℕ) → List String → ℕ → ℕ
  | 0, _, _, best => best
  | fuel + 1, queue, localVisited, best =>
    match queue with
    | [] => best
    | (nodeId, depth) :: rest =>
      if nodeId ∈ localVisited then bfsDepth adj fuel rest localVisited best
      else
        let localVisited := nodeId :: localVisited
        let best := max best depth
        let neighbors := (alGet adj nodeId).getD []
        let queue := rest ++ (neighbors.filter (· ∉ localVisited)).map (fun nb => (nb, depth + 1))
        bfsDepth adj fuel queue localVisited best

/-- Total number of adjacency entries (used as a fuel bound). -/
def adjSize (adj : List (String × List String)) : ℕ :=
  adj.foldl (fun a p => a + p.2.length) 0

/-- `FormCompiler.calculateMaxDepth`: BFS from every adjacency key not yet
used as a start (the source adds only start nodes to the outer visited
set). -/
def calculateMaxDepth (adj : List (String × List String)) : ℕ :=
  let fuel := adj.length + adjSize adj + 2
  (adj.foldl (fun (st : List String × ℕ) p =>
    if p.1 ∈ st.1 then st
    else (p.1 :: st.1, max st.2 (bfsDepth adj fuel [(p.1, 0)] [] 0))) ([], 0)).2

/-- The DFS worker of `FormCompiler.estimateCycleCount`: counts back
edges; `stack` is the current recursion path. -/
def cycleCountDfs (adj : List (String × List String)) :
    ℕ → String → List String → List String → ℕ → List String × ℕ
  | 0, _, _, visited, count => (visited, count)
  | fuel + 1, nodeId, stack, visited, count =>
    let visited := nodeId :: visited
    let stack := nodeId :: stack
    ((alGet adj nodeId).getD []).foldl (fun (st : List String × ℕ) neighbor =>
      if neighbor ∈ st.1 then
        if neighbor ∈ stack then (st.1, st.2 + 1) else st
      else cycleCountDfs adj fuel neighbor stack st.1 st.2) (visited, count)

/-- `FormCompiler.estimateCycleCount`. -/
def estimateCycleCount (adj : List (String × List String)) : ℕ :=
  let fuel := adj.length + adjSize adj + 2
  (adj.foldl (fun (st : List String × ℕ) p =>
    if p.1 ∈ st.1 then st
    else cycleCountDfs adj fuel p.1 [] st.1 st.2) ([], 0)).2

/-- `FormCompiler.calculateComplexity`. -/
def calculateComplexity (adj : List (String × List String)) : Complexity :=
  let branchingFactors := adj.map (fun p => p.2.length)
  let avgBranching : QV :=
    if branchingFactors.length > 0 then
      qvDiv (qvOfNat (branchingFactors.foldl (fun a b => a + b) 0))
        (qvOfNat branchingFactors.length)
    else qvInt 0
  { maxDepth := calculateMaxDepth adj
    avgBranching := avgBranching
    cycleCount := estimateCycleCount adj }

/-- `FormCompiler.compile`, with the `new Date()` reading passed as `t`.
The in-place default mutation of the source is modelled by defaulting the
node/relation lists before every later use, which sees exactly the
mutated objects. -/
def compile (t : ℕ) (form : FormFile) : FormGraph :=
  let defaultedNodes := form.nodes.map compileNodeDefaults
  let defaultedRelations := form.relations.map compileRelationDefaults
  let nodes := defaultedNodes.foldl (fun acc n => alSet acc n.id n) []
  let relations := defaultedRelations.foldl (fun acc r => alSet acc r.id r) []
  let adjPair := buildAdjacencyLists defaultedRelations
  let adjacencyList := adjPair.1
  let reverseAdjacencyList := adjPair.2
  let execution : CompiledExecution :=
    { entry_points :=
        match form.execution.bind ExecutionConfig.entry_points with
        | some eps => eps
        | none => inferEntryPoints defaultedNodes reverseAdjacencyList
      exit_points :=
        match form.execution.bind ExecutionConfig.exit_points with
        | some eps => eps
        | none => inferExitPoints defaultedNodes adjacencyList
      max_iterations :=
        match form.execution.bind ExecutionConfig.max_iterations with
        | some n => if n = 0 then 1000 else n
        | none => 1000
      timeout :=
        match form.execution.bind ExecutionConfig.timeout with
        | some n => if n = 0 then 30000 else n
        | none => 30000
      mode := (form.execution.bind ExecutionConfig.mode).getD .adaptive }
  { metadata := form.metadata
    nodes := nodes
    relations := relations
    adjacencyList := adjacencyList
    reverseAdjacencyList := reverseAdjacencyList
    execution := execution
    extensions :=
      { user := form.extensions.getD []
        compilation := some
          { timestamp := t
            nodeCount := nodes.length
            relationCount := relations.length
            complexity := calculateComplexity adjacencyList } } }

/-! ### Optimization (`FormCompiler.optimizeForExecution`) -/

inductive OptimizationMode where
  | speed | memory | balanced
deriving Repr, DecidableEq

/-- `relation?.strength || 1.0` for the first relation `source → target`
in map-insertion order (`Array.from(graph.relations.values()).find`); an
explicit strength of `0` is falsy and coerced to `1.0`. -/
def strengthOfPair (relations : List (String × FormRelation)) (src tgt : String) : QV :=
  match relations.find? (fun p => p.2.source = src ∧ p.2.target = tgt) with
  | some p =>
    match p.2.strength with
    | some q => if q.num = 0 then qvInt 1 else q
    | none => qvInt 1
  | none => qvInt 1

/-- `FormCompiler.optimizeForSpeed`: sort each adjacency list by
descending relation strength (JS `sort` is stable). -/
def optimizeForSpeed (t : ℕ) (graph : FormGraph) : FormGraph :=
  let adjacency := graph.adjacencyList.map (fun p =>
    let targetData := p.2.map (fun targetId => (targetId, strengthOfPair graph.relations p.1 targetId))
    (p.1, (sortBy (fun a b => qvLe b.2 a.2) targetData).map Prod.fst))
  { graph with
    adjacencyList := adjacency
    extensions := { graph.extensions with
      optimization := some { type := "speed", applied := true, timestamp := t } } }

/-- JS `x === 1.0` on an optional number. -/
def jsIsOne : Option QV → Bool
  | some q => qvEqInt q 1
  | none => false

/-- Field stripping of `FormCompiler.optimizeForMemory` on a node. -/
def memoryNodeStrip (node : FormNode) : FormNode :=
  let d := node.data
  let d := if jsIsOne d.confidence then { d with confidence := none } else d
  let d := if jsIsOne d.weight then { d with weight := none } else d
  let d := if d.state = some .active then { d with state := none } else d
  { node with data := d }

/-- Field stripping of `FormCompiler.optimizeForMemory` on a relation. -/
def memoryRelStrip (rel : FormRelation) : FormRelation :=
  let rel := if jsIsOne rel.strength then { rel with strength := none } else rel
  if rel.bidirectional = some false then { rel with bidirectional := none } else rel

/-- `FormCompiler.optimizeForMemory`. -/
def optimizeForMemory (t : ℕ) (graph : FormGraph) : FormGraph :=
  { graph with
    nodes := graph.nodes.map (fun p => (p.1, memoryNodeStrip p.2))
    relations := graph.relations.map (fun p => (p.1, memoryRelStrip p.2))
    extensions := { graph.extensions with
      optimization := some { type := "memory", applied := true, timestamp := t } } }

/-- Confidence stripping of `FormCompiler.optimizeBalanced` on a node. -/
def balancedNodeStrip (node : FormNode) : FormNode :=
  if jsIsOne node.data.confidence ∧ node.type ≠ .condition ∧ node.type ≠ .formula then
    { node with data := { node.data with confidence := none } }
  else node

/-- `FormCompiler.optimizeBalanced`: speed sort, selective confidence
stripping, then the `balanced` tag overwrites the `speed` one. -/
def optimizeBalanced (t : ℕ) (graph : FormGraph) : FormGraph :=
  let graph := optimizeForSpeed t graph
  { graph with
    nodes := graph.nodes.map (fun p => (p.1, balancedNodeStrip p.2))
    extensions := { graph.extensions with
      optimization := some { type := "balanced", applied := true, timestamp := t } } }

/-- `FormCompiler.optimizeForExecution` (the deep copy of the source is
the identity in a pure model). -/
def optimizeForExecution (graph : FormGraph) (mode : OptimizationMode) (t : ℕ) : FormGraph :=
  match mode with
  | .speed => optimizeForSpeed t graph
  | .memory => optimizeForMemory t graph
  | .balanced => optimizeBalanced t graph

/-! ## Execution engine (`FormExecutor.ts`)

`Date.now()` is modelled by a `World : ℕ → ℕ` oracle read once per call,
with the call counter kept in the executor state.  The engine is
parameterized by the formula evaluator (the JS `new Function` machinery of
`FormulaEvaluator`, a platform capability) and by the table of custom node
evaluators, which the source smuggles through `graph.extensions` as JS
functions. -/

inductive StepAction where
  | evaluate | execute | trigger | complete
deriving Repr, DecidableEq

structure ExecutionStep where
  stepNumber : ℕ
  nodeId : String
  action : StepAction
  timestamp : ℕ
  inputState : Value
  outputState : Value
  duration : ℤ
deriving Repr, DecidableEq

inductive ExecErrorType where
  | timeout | infinite_loop | formula_error | condition_error | extension_error
  | execution_error | node_execution
deriving Repr, DecidableEq

structure ExecError where
  type : ExecErrorType
  message : String
  nodeId : Option String := none
  timestamp : ℕ
deriving Repr, DecidableEq

structure ExecutionMetrics where
  totalDuration : ℤ
  nodesExecuted : ℕ
  iterationsCompleted : ℕ
  memoryUsed : ℕ
  formulasEvaluated : ℕ
deriving Repr, DecidableEq

structure ExecutionResult where
  success : Bool
  finalState : List (String × Value)
  executionTrace : List ExecutionStep
  metrics : ExecutionMetrics
  errors : Option (List ExecError)
deriving Repr, DecidableEq

/-- Wall-clock oracle: the value of the n-th `Date.now()` call. -/
def World : Type := ℕ → ℕ

/-- The executor's instance state (`executionState`, `executionTrace`,
`errors`, `startTime`, `currentIteration`), plus an overlay recording the
`updateNodeState` mutations of `node.data.state` (which nothing reads back
during a run) and the `Date.now()` call counter. -/
structure ExecSt where
  executionState : List (String × Value) := []
  executionTrace : List ExecutionStep := []
  errors : List ExecError := []
  startTime : ℕ := 0
  currentIteration : ℕ := 0
  nodeStates : List (String × NodeState) := []
  clock : ℕ := 0
deriving Repr, DecidableEq

/-- One `Date.now()` call. -/
def dateNow (w : World) (st : ExecSt) : ℕ × ExecSt :=
  (w st.clock, { st with clock := st.clock + 1 })

/-- `this.executionState.get(id)` (JS yields `undefined` when absent). -/
def stateGet (σ : List (String × Value)) (id : String) : Value :=
  (alGet σ id).getD (Value.undef)

/-- Abstraction of `FormulaEvaluator.evaluate` as the executor sees it: a
fixed function from expression and variable context to a value or an
error message.  The concrete evaluator's safety check and sandbox
bindings are modelled separately (`safePattern`, `sandboxKeyNames`). -/
def FormulaFn : Type := String → List (String × Value) → Except String Value

/-- A custom node evaluator (`extensions.customEvaluators[customType]`):
receives node, graph and state map. -/
def CustomEvalFn : Type := FormNode → FormGraph → List (String × Value) → Value

structure ExecEnv where
  graph : FormGraph
  fEval : FormulaFn
  customEvals : String → Option CustomEvalFn

/-- `FormExecutor.addExecutionStep`: consumes one clock tick for the step
timestamp and numbers steps by current trace length + 1. -/
def addExecutionStep (w : World) (st : ExecSt) (nodeId : String) (action : StepAction)
    (inputState outputState : Value) (duration : ℤ) : ExecSt :=
  let p := dateNow w st
  let st := p.2
  let step : ExecutionStep :=
    { stepNumber := st.executionTrace.length + 1, nodeId := nodeId, action := action,
      timestamp := p.1, inputState := inputState, outputState := outputState,
      duration := duration }
  { st with executionTrace := st.executionTrace ++ [step] }

/-- `FormExecutor.addError` (the `Date.now()` of a call is consumed at the
call site, as in the source where it is an argument expression). -/
def addError (st : ExecSt) (type : ExecErrorType) (message : String) (timestamp : ℕ)
    (nodeId : Option String) : ExecSt :=
  { st with errors := st.errors ++
      [{ type := type, message := message, nodeId := nodeId, timestamp := timestamp }] }

/-- `FormExecutor.updateNodeState` (mutation of `node.data.state`,
recorded in the overlay). -/
def updateNodeState (st : ExecSt) (nodeId : String) (state : NodeState) : ExecSt :=
  { st with nodeStates := alSet st.nodeStates nodeId state }

/-- `FormExecutor.getInitialNodeValue`. -/
def getInitialNodeValue (node : FormNode) : Value :=
  match node.data.value with
  | some v => v
  | none =>
    match node.type with
    | .concept => .num (qvInt 0)
    | .condition => .bool false
    | .action => .bool false
    | .event => .bool false
    | .formula => .null
    | .custom => .null

/-- `FormExecutor.initializeExecution`. -/
def initializeExecution (w : World) (graph : FormGraph)
    (inputs : List (String × Value)) : ExecSt :=
  let st : ExecSt := {}
  let p := dateNow w st
  let st := { p.2 with startTime := p.1 }
  let st := inputs.foldl (fun st q =>
    let st := { st with executionState := alSet st.executionState q.1 q.2 }
    addExecutionStep w st q.1 .evaluate q.2 q.2 0) st
  graph.nodes.foldl (fun st q =>
    if alHas st.executionState q.1 then st
    else { st with executionState := alSet st.executionState q.1 (getInitialNodeValue q.2) }) st

/-! ### Helper semantics of JS coercions used by the node evaluators -/

/-- JS `String(v)` on the modelled values. -/
def jsStringOf : Value → String
  | .null => "null"
  | .undef => "undefined"
  | .nan => "NaN"
  | .bool b => cond b "true" "false"
  | .num q => renderQ q
  | .str s => s

/-- Simplified JS `ToNumber`: strings are parsed only when they are
optionally-signed digit strings (full JS float parsing is not modelled;
no claim feeds other strings into numeric contexts).  `none` is NaN. -/
def jsToNumber : Value → Option QV
  | .num q => some q
  | .bool b => some (qvInt (cond b 1 0))
  | .null => some (qvInt 0)
  | .nan => none
  | .undef => none
  | .str s =>
    let cs := s.toList
    if cs.isEmpty then some (qvInt 0)
    else if cs.all Char.isDigit then
      some (qvOfNat (cs.foldl (fun a c => a * 10 + (c.toNat - 48)) 0))
    else
      match cs with
      | '-' :: rest =>
        if !rest.isEmpty && rest.all Char.isDigit then
          some (qvNeg (qvOfNat (rest.foldl (fun a c => a * 10 + (c.toNat - 48)) 0)))
        else none
      | _ => none

/-- JS relational comparison (`<`, `>`, `<=`, `>=`): lexicographic when
both operands are strings, else numeric; `none` when a NaN appears. -/
def jsCompareVals (a b : Value) : Option Ordering :=
  match a, b with
  | .str x, .str y => some (compare x y)
  | _, _ =>
    match jsToNumber a, jsToNumber b with
    | some x, some y => some (qvCompare x y)
    | _, _ => none

/-- JS `v * k` (numeric coercion; NaN on failure). -/
def jsMulNum (v : Value) (k : QV) : Value :=
  match jsToNumber v with
  | some q => .num (qvMul q k)
  | none => .nan

/-- JS `v + k` for a number literal `k`: string concatenation when `v` is
a string, numeric addition otherwise. -/
def jsAddNum (v : Value) (k : QV) : Value :=
  match v with
  | .str s => .str (s ++ renderQ k)
  | _ =>
    match jsToNumber v with
    | some q => .num (qvAdd q k)
    | none => .nan

/-! ### The condition-logic mini evaluator
(`FormExecutor.evaluateLogicExpression`)

The source substitutes每 node id by `String(Boolean(value))` with a
word-boundary regex, gates the result through the (badly written)
character class `[true|false&|\||!|\(|\)\s]+`, and hands it to
`new Function`.  The replacement and the character class are translated
exactly; the `new Function` evaluation is modelled by a recursive-descent
evaluator of the JS expression grammar over the reachable tokens
(`true`, `false`, `!`, `&&`, `||`, `&`, `|`, parentheses), with every JS
throw (syntax errors, stray identifiers) mapped to the `catch` result
`false` as in the source. -/

def isWordChar (c : Char) : Bool := c.isAlphanum || c = '_'

def wordness : Option Char → Bool
  | none => false
  | some c => isWordChar c

/-- Global word-boundary replacement
(`expression.replace(new RegExp('\\b' + id + '\\b', 'g'), rep)`): matches
are located in the original string, boundaries compare the word-ness of
the characters adjacent to the match (ends count as non-word). -/
def replaceWordAux (pat rep : List Char) : ℕ → Option Char → List Char → List Char
  | 0, _, s => s
  | _ + 1, _, [] => []
  | fuel + 1, prev, c :: rest =>
    match pat with
    | [] => c :: rest
    | p0 :: _ =>
      let s := c :: rest
      let pLast := (pat.getLast?).getD p0
      if charsStartWith pat s && (wordness prev != isWordChar p0) &&
         (isWordChar pLast != wordness (s.drop pat.length).head?) then
        rep ++ replaceWordAux pat rep fuel (some pLast) (s.drop pat.length)
      else c :: replaceWordAux pat rep fuel (some c) rest

def replaceWordBoundary (s pat rep : String) : String :=
  String.mk (replaceWordAux pat.toList rep.toList (s.toList.length + 1) none s.toList)

/-- The character class `[true|false&|\||!|\(|\)\s]` of the safety regex,
which is a set of characters, not the intended alternation. -/
def logicCharOk (c : Char) : Bool :=
  c = 't' || c = 'r' || c = 'u' || c = 'e' || c = '|' || c = 'f' || c = 'a' ||
  c = 'l' || c = 's' || c = '&' || c = '!' || c = '(' || c = ')' || c.isWhitespace

def logicPattern (s : String) : Bool :=
  s != "" && s.toList.all logicCharOk

inductive LTok where
  | lit (b : Bool) | andand | oror | amp | bar | bang | lpar | rpar
deriving Repr, DecidableEq

def logicTokenize : ℕ → List Char → Option (List LTok)
  | 0, _ => none
  | _ + 1, [] => some []
  | fuel + 1, c :: rest =>
    if c.isWhitespace then logicTokenize fuel rest
    else if c = '(' then (logicTokenize fuel rest).map (.lpar :: ·)
    else if c = ')' then (logicTokenize fuel rest).map (.rpar :: ·)
    else if c = '!' then (logicTokenize fuel rest).map (.bang :: ·)
    else if c = '&' then
      match rest with
      | '&' :: r2 => (logicTokenize fuel r2).map (.andand :: ·)
      | _ => (logicTokenize fuel rest).map (.amp :: ·)
    else if c = '|' then
      match rest with
      | '|' :: r2 => (logicTokenize fuel r2).map (.oror :: ·)
      | _ => (logicTokenize fuel rest).map (.bar :: ·)
    else if charsStartWith ['t', 'r', 'u', 'e'] (c :: rest) then
      (logicTokenize fuel ((c :: rest).drop 4)).map (.lit true :: ·)
    else if charsStartWith ['f', 'a', 'l', 's', 'e'] (c :: rest) then
      (logicTokenize fuel ((c :: rest).drop 5)).map (.lit false :: ·)
    else none

/-- `ToInt32` restricted to the booleans and small numbers reachable in
the logic evaluator (negative / large operands do not occur). -/
def toInt32ish : Value → ℤ
  | .bool b => cond b 1 0
  | .num q => qvFloor q
  | _ => 0

def landZ (x y : ℤ) : ℤ := Int.ofNat (Nat.land x.toNat y.toNat)

def lorZ (x y : ℤ) : ℤ := Int.ofNat (Nat.lor x.toNat y.toNat)

mutual

/-- JS `||` level (lowest precedence): `a || b` yields `a` when truthy. -/
def parseOrOr : ℕ → List LTok → Option (Value × List LTok)
  | 0, _ => none
  | fuel + 1, toks =>
    match parseAndAnd fuel toks with
    | some (v, rest) => parseOrOrRest fuel v rest
    | none => none

def parseOrOrRest : ℕ → Value → List LTok → Option (Value × List LTok)
  | 0, _, _ => none
  | fuel + 1, v, .oror :: rest =>
    match parseAndAnd fuel rest with
    | some (w, r2) => parseOrOrRest fuel (if truthy v then v else w) r2
    | none => none
  | _ + 1, v, rest => some (v, rest)

def parseAndAnd : ℕ → List LTok → Option (Value × List LTok)
  | 0, _ => none
  | fuel + 1, toks =>
    match parseBitOr fuel toks with
    | some (v, rest) => parseAndAndRest fuel v rest
    | none => none

def parseAndAndRest : ℕ → Value → List LTok → Option (Value × List LTok)
  | 0, _, _ => none
  | fuel + 1, v, .andand :: rest =>
    match parseBitOr fuel rest with
    | some (w, r2) => parseAndAndRest fuel (if truthy v then w else v) r2
    | none => none
  | _ + 1, v, rest => some (v, rest)

def parseBitOr : ℕ → List LTok → Option (Value × List LTok)
  | 0, _ => none
  | fuel + 1, toks =>
    match parseBitAnd fuel toks with
    | some (v, rest) => parseBitOrRest fuel v rest
    | none => none

def parseBitOrRest : ℕ → Value → List LTok → Option (Value × List LTok)
  | 0, _, _ => none
  | fuel + 1, v, .bar :: rest =>
    match parseBitAnd fuel rest with
    | some (w, r2) => parseBitOrRest fuel (.num (qvInt (lorZ (toInt32ish v) (toInt32ish w)))) r2
    | none => none
  | _ + 1, v, rest => some (v, rest)

def parseBitAnd : ℕ → List LTok → Option (Value × List LTok)
  | 0, _ => none
  | fuel + 1, toks =>
    match parseUnary fuel toks with
    | some (v, rest) => parseBitAndRest fuel v rest
    | none => none

def parseBitAndRest : ℕ → Value → List LTok → Option (Value × List LTok)
  | 0, _, _ => none
  | fuel + 1, v, .amp :: rest =>
    match parseUnary fuel rest with
    | some (w, r2) => parseBitAndRest fuel (.num (qvInt (landZ (toInt32ish v) (toInt32ish w)))) r2
    | none => none
  | _ + 1, v, rest => some (v, rest)

def parseUnary : ℕ → List LTok → Option (Value × List LTok)
  | 0, _ => none
  | _ + 1, .lit b :: rest => some (.bool b, rest)
  | fuel + 1, .bang :: rest =>
    match parseUnary fuel rest with
    | some (v, r2) => some (.bool (!truthy v), r2)
    | none => none
  | fuel + 1, .lpar :: rest =>
    match parseOrOr fuel rest with
    | some (v, .rpar :: r2) => some (v, r2)
    | _ => none
  | _ + 1, _ => none

end

/-- `FormExecutor.evaluateLogicExpression`: substitution, character-class
gate, evaluation; every failure path is the `catch` result `false`. -/
def evaluateLogicExpression (graph : FormGraph) (σ : List (String × Value))
    (logic : String) : Value :=
  let expression := graph.nodes.foldl (fun expr p =>
    let value := stateGet σ p.1
    replaceWordBoundary expr p.1 (cond (truthy value) "true" "false")) logic
  if !logicPattern expression then .bool false
  else
    match logicTokenize (expression.toList.length + 1) expression.toList with
    | some toks =>
      match parseOrOr (5 * toks.length + 5) toks with
      | some (v, []) => v
      | _ => .bool false
    | none => .bool false

/-! ### Node evaluators (`FormExecutor.evaluate*`) -/

/-- `FormExecutor.findRelation`: first relation `source → target` in
map-insertion order. -/
def findRelation (graph : FormGraph) (sourceId targetId : String) : Option FormRelation :=
  (graph.relations.find? (fun p => p.2.source = sourceId ∧ p.2.target = targetId)).map Prod.snd

/-- `FormExecutor.evaluateConcept`.  The predecessor weight is
`relation?.strength || 1.0`, so an explicit strength of `0` (and a
missing reverse relation of a bidirectional edge) contributes weight
`1.0`.  A NaN predecessor of number type poisons the weighted sum, as in
JS. -/
def evaluateConcept (graph : FormGraph) (σ : List (String × Value)) (node : FormNode) : Value :=
  let incomingNodes := (alGet graph.reverseAdjacencyList node.id).getD []
  if incomingNodes.length = 0 then
    match node.data.value with
    | some v => v
    | none => stateGet σ node.id
  else
    let acc := incomingNodes.foldl (fun (acc : QV × QV × Bool) sourceId =>
      let relation := findRelation graph sourceId node.id
      let sourceValue := stateGet σ sourceId
      let weight : QV :=
        match relation with
        | some r =>
          match r.strength with
          | some q => if q.num = 0 then qvInt 1 else q
          | none => qvInt 1
        | none => qvInt 1
      match sourceValue with
      | .num q => (qvAdd acc.1 weight, qvAdd acc.2.1 (qvMul q weight), acc.2.2)
      | .nan => (qvAdd acc.1 weight, acc.2.1, true)
      | _ => acc) (qvInt 0, qvInt 0, false)
    if qvLt (qvInt 0) acc.1 then (if acc.2.2 then .nan else .num (qvDiv acc.2.1 acc.1))
    else stateGet σ node.id

/-- `FormExecutor.evaluateRelationConditions`: every condition triple must
hold against the predecessor's current value (the `field` path is unused
by the source). -/
def evaluateRelationConditions (conditions : List RelationCondition) (value : Value) : Bool :=
  conditions.all (fun c =>
    match c.operator with
    | "eq" => jsTripleEq value c.value
    | "neq" => !jsTripleEq value c.value
    | "gt" => jsCompareVals value c.value == some .gt
    | "lt" => jsCompareVals value c.value == some .lt
    | "gte" => jsCompareVals value c.value == some .gt || jsCompareVals value c.value == some .eq
    | "lte" => jsCompareVals value c.value == some .lt || jsCompareVals value c.value == some .eq
    | "contains" => containsSubstr (jsStringOf value) (jsStringOf c.value)
    | _ => false)

/-- `FormExecutor.evaluateCondition`. -/
def evaluateCondition (graph : FormGraph) (σ : List (String × Value)) (node : FormNode) : Value :=
  let parameters := node.data.parameters.getD {}
  match parameters.logic with
  | some logic =>
    if logic ≠ "" then evaluateLogicExpression graph σ logic
    else evaluateConditionDefault graph σ node
  | none => evaluateConditionDefault graph σ node
where
  /-- The no-`logic` path of `evaluateCondition`: any predecessor
  satisfying its relation's activation conditions (an empty but present
  condition list is trivially satisfied; absent conditions fall back to
  predecessor truthiness). -/
  evaluateConditionDefault (graph : FormGraph) (σ : List (String × Value))
      (node : FormNode) : Value :=
    let incomingNodes := (alGet graph.reverseAdjacencyList node.id).getD []
    if incomingNodes.length = 0 then .bool (truthy ((node.data.value).getD .undef))
    else .bool (incomingNodes.any (fun sourceId =>
      let relation := findRelation graph sourceId node.id
      let sourceValue := stateGet σ sourceId
      match relation.bind FormRelation.conditions with
      | some conds => evaluateRelationConditions conds sourceValue
      | none => truthy sourceValue))

/-- `FormExecutor.sumInputs` (non-numbers contribute `0`; a NaN input
poisons the sum as in JS). -/
def sumInputs (parameters : Params) (σ : List (String × Value)) : Value :=
  let inputs := parameters.inputs.getD []
  let acc := inputs.foldl (fun (acc : QV × Bool) nodeId =>
    match stateGet σ nodeId with
    | .num q => (qvAdd acc.1 q, acc.2)
    | .nan => (acc.1, true)
    | _ => acc) (qvInt 0, false)
  if acc.2 then .nan else .num acc.1

/-- `FormExecutor.multiplyInputs`. -/
def multiplyInputs (parameters : Params) (σ : List (String × Value)) : Value :=
  let inputs := parameters.inputs.getD []
  let acc := inputs.foldl (fun (acc : QV × Bool) nodeId =>
    match stateGet σ nodeId with
    | .num q => (qvMul acc.1 q, acc.2)
    | .nan => (acc.1, true)
    | _ => acc) (qvInt 1, false)
  if acc.2 then .nan else .num acc.1

/-- `FormExecutor.transformValue`. -/
def transformValue (parameters : Params) : Value :=
  let input := parameters.input.getD .undef
  match parameters.transform with
  | some "negate" => .bool (!truthy input)
  | some "double" => jsMulNum input (qvInt 2)
  | some "increment" => jsAddNum input (qvInt 1)
  | _ => input

/-- `FormExecutor.executeOperation`. -/
def executeOperation (operation : String) (parameters : Params)
    (σ : List (String × Value)) : Value :=
  match operation with
  | "sum" => sumInputs parameters σ
  | "multiply" => multiplyInputs parameters σ
  | "transform" => transformValue parameters
  | _ => .bool true

/-- `FormExecutor.evaluateAction`: gate on all predecessors truthy, else
keep the current value; when open, run the configured operation or yield
`true`. -/
def evaluateAction (graph : FormGraph) (σ : List (String × Value)) (node : FormNode) : Value :=
  let parameters := node.data.parameters.getD {}
  let incomingNodes := (alGet graph.reverseAdjacencyList node.id).getD []
  let prerequisitesMet := incomingNodes.all (fun sourceId => truthy (stateGet σ sourceId))
  if !prerequisitesMet then stateGet σ node.id
  else
    match parameters.operation with
    | some op => if op ≠ "" then executeOperation op parameters σ else .bool true
    | none => .bool true

/-- `FormExecutor.evaluateTimeTrigger` (`interval || 1000`,
`lastTrigger || 0`). -/
def evaluateTimeTrigger (parameters : Params) (now : ℕ) : Value :=
  let interval : ℕ :=
    match parameters.interval with
    | some i => if i = 0 then 1000 else i
    | none => 1000
  let lastTrigger : ℕ := (parameters.lastTrigger).getD 0
  .bool ((now : ℤ) - (lastTrigger : ℤ) ≥ (interval : ℤ))

/-- `FormExecutor.evaluateStateTrigger`. -/
def evaluateStateTrigger (parameters : Params) (σ : List (String × Value)) : Value :=
  match parameters.watchedNode with
  | some watched =>
    if watched ≠ "" then
      .bool (jsTripleEq (stateGet σ watched) ((parameters.triggerValue).getD .undef))
    else .bool false
  | none => .bool false

/-- `FormExecutor.evaluateEvent` (`now` is the `Date.now()` reading of the
time-trigger path). -/
def evaluateEvent (σ : List (String × Value)) (node : FormNode) (now : ℕ) : Value :=
  let parameters := node.data.parameters.getD {}
  if parameters.triggerType = some "time" then evaluateTimeTrigger parameters now
  else if parameters.triggerType = some "state" then evaluateStateTrigger parameters σ
  else stateGet σ node.id

/-- `FormExecutor.buildVariableContext`: own value first, then every
predecessor's value keyed by id. -/
def buildVariableContext (graph : FormGraph) (σ : List (String × Value))
    (node : FormNode) : List (String × Value) :=
  let context := alSet [] node.id (stateGet σ node.id)
  ((alGet graph.reverseAdjacencyList node.id).getD []).foldl
    (fun ctx depId => alSet ctx depId (stateGet σ depId)) context

/-- `FormExecutor.evaluateFormula`: `parameters.expression ||
parameters.formula`, missing (or empty, which is falsy) expression
throws; otherwise delegate to the formula evaluator. -/
def evaluateFormula (env : ExecEnv) (σ : List (String × Value))
    (node : FormNode) : Except String Value :=
  let parameters := node.data.parameters.getD {}
  let formulaOpt :=
    match parameters.expression with
    | some e => if e ≠ "" then some e else parameters.formula
    | none => parameters.formula
  match formulaOpt with
  | none => .error ("Formula node " ++ node.id ++ " missing expression")
  | some f =>
    if f = "" then .error ("Formula node " ++ node.id ++ " missing expression")
    else
      match env.fEval f (buildVariableContext env.graph σ node) with
      | .ok v => .ok v
      | .error e => .error ("Formula evaluation failed: " ++ e)

/-- `FormExecutor.evaluateCustomNode` (`node.custom_type || 'unknown'`). -/
def evaluateCustomNode (env : ExecEnv) (σ : List (String × Value)) (node : FormNode) : Value :=
  let customType :=
    match node.custom_type with
    | some s => if s ≠ "" then s else "unknown"
    | none => "unknown"
  match env.customEvals customType with
  | some f => f node env.graph σ
  | none => stateGet σ node.id

/-- `FormExecutor.evaluateNode` as a pure function of the state map and
the `Date.now()` reading `now` (consumed only by time-trigger events). -/
def evaluateNodePure (env : ExecEnv) (σ : List (String × Value)) (node : FormNode)
    (now : ℕ) : Except String Value :=
  match node.type with
  | .concept => .ok (evaluateConcept env.graph σ node)
  | .condition => .ok (evaluateCondition env.graph σ node)
  | .action => .ok (evaluateAction env.graph σ node)
  | .event => .ok (evaluateEvent σ node now)
  | .formula => evaluateFormula env σ node
  | .custom => .ok (evaluateCustomNode env σ node)

/-- Whether evaluating the node reads `Date.now()` (the time-trigger path
of `evaluateEvent`). -/
def evalReadsClock (node : FormNode) : Bool :=
  node.type = .event && (node.data.parameters.getD {}).triggerType = some "time"

/-- `FormExecutor.evaluateNode` with its clock effect. -/
def evaluateNode (w : World) (env : ExecEnv) (st : ExecSt) (node : FormNode) :
    Except String Value × ExecSt :=
  if evalReadsClock node then
    let p := dateNow w st
    (evaluateNodePure env st.executionState node p.1, p.2)
  else
    (evaluateNodePure env st.executionState node 0, st)

/-! ### Scheduling (`executeSequential` / `executeParallel` /
`executeAdaptive` / `executeHybrid`) -/

/-- The per-node step shared verbatim by the `executeSequential` loop body
and `FormExecutor.processNode`: evaluate, compare with `valuesEqual`,
store + trace + mark `completed` on change; record a `node_execution`
error and mark `failed` on throw. -/
def processOneNode (w : World) (env : ExecEnv) (st : ExecSt) (nodeId : String) :
    Bool × ExecSt :=
  match alGet env.graph.nodes nodeId with
  | none => (false, st)
  | some node =>
    let p := dateNow w st
    let stepStart := p.1
    let st := p.2
    let previousValue := stateGet st.executionState nodeId
    match evaluateNode w env st node with
    | (.ok newValue, st) =>
      let p2 := dateNow w st
      let stepDuration : ℤ := (p2.1 : ℤ) - (stepStart : ℤ)
      let st := p2.2
      if !valuesEqual previousValue newValue then
        let st := { st with executionState := alSet st.executionState nodeId newValue }
        let st := addExecutionStep w st nodeId .execute previousValue newValue stepDuration
        let st := updateNodeState st nodeId .completed
        (true, st)
      else (false, st)
    | (.error msg, st) =>
      let p2 := dateNow w st
      let st := addError p2.2 .node_execution msg p2.1 (some nodeId)
      let st := updateNodeState st nodeId .failed
      (false, st)

/-- The DFS worker of `FormExecutor.getProcessingOrder` (post-order over
the reverse adjacency: dependencies first). -/
def processingDfs (reverse : List (String × List String)) :
    ℕ → String → List String → List String → List String × List String
  | 0, _, visited, result => (visited, result)
  | fuel + 1, nodeId, visited, result =>
    if nodeId ∈ visited then (visited, result)
    else
      let visited := nodeId :: visited
      let st := ((alGet reverse nodeId).getD []).foldl
        (fun (st : List String × List String) depId =>
          processingDfs reverse fuel depId st.1 st.2) (visited, result)
      (st.1, st.2 ++ [nodeId])

/-- `FormExecutor.getProcessingOrder`. -/
def getProcessingOrder (graph : FormGraph) : List String :=
  let fuel := graph.nodes.length + graph.reverseAdjacencyList.length +
    adjSize graph.reverseAdjacencyList + 2
  (graph.nodes.foldl (fun (st : List String × List String) p =>
    processingDfs graph.reverseAdjacencyList fuel p.1 st.1 st.2) ([], [])).2

/-- The level-building loop of `FormExecutor.groupNodesByDependencyLevel`
(at most 100 iterations). -/
def groupLevelsLoop (graph : FormGraph) :
    ℕ → List (List String) → List String → List (List String)
  | 0, levels, _ => levels
  | n + 1, levels, visited =>
    if visited.length < graph.nodes.length then
      let nextLevel := (alKeys graph.nodes).filter (fun nodeId =>
        nodeId ∉ visited &&
        ((alGet graph.reverseAdjacencyList nodeId).getD []).all (fun d => d ∈ visited))
      if nextLevel.length > 0 then
        groupLevelsLoop graph n (levels ++ [nextLevel]) (visited ++ nextLevel)
      else groupLevelsLoop graph n levels visited
    else levels

/-- `FormExecutor.groupNodesByDependencyLevel`. -/
def groupNodesByDependencyLevel (graph : FormGraph) : List (List String) :=
  let level0 := (alKeys graph.nodes).filter (fun nodeId =>
    !alHas graph.reverseAdjacencyList nodeId ||
    ((alGet graph.reverseAdjacencyList nodeId).getD []).length = 0)
  if level0.length > 0 then groupLevelsLoop graph 100 [level0] level0
  else groupLevelsLoop graph 100 [] []

/-- `FormExecutor.findStronglyConnectedComponents`: the source is an
acknowledged placeholder returning every node as its own component. -/
def findStronglyConnectedComponents (graph : FormGraph) : List (List String) :=
  (alKeys graph.nodes).map (fun nodeId => [nodeId])

/-- The inner rounds of `FormExecutor.processCycle` (at most 10, stopping
when a round changes nothing). -/
def processCycleLoop (w : World) (env : ExecEnv) (nodeIds : List String) :
    ℕ → Bool → ExecSt → Bool × ExecSt
  | 0, hasChanges, st => (hasChanges, st)
  | n + 1, hasChanges, st =>
    let round := nodeIds.foldl (fun (acc : Bool × ExecSt) nodeId =>
      let r := processOneNode w env acc.2 nodeId
      (acc.1 || r.1, r.2)) (false, st)
    if round.1 then processCycleLoop w env nodeIds n (hasChanges || round.1) round.2
    else (hasChanges || round.1, round.2)

/-- `FormExecutor.processCycle`. -/
def processCycle (w : World) (env : ExecEnv) (st : ExecSt) (nodeIds : List String) :
    Bool × ExecSt :=
  processCycleLoop w env nodeIds 10 false st

/-- One pass of the `executeSequential` loop body (iteration counter
increment and the per-node fold in processing order). -/
def seqPassBody (w : World) (env : ExecEnv) (st : ExecSt) : Bool × ExecSt :=
  let st := { st with currentIteration := st.currentIteration + 1 }
  (getProcessingOrder env.graph).foldl (fun (acc : Bool × ExecSt) nodeId =>
    let r := processOneNode w env acc.2 nodeId
    (acc.1 || r.1, r.2)) (false, st)

/-- Phase 1 of a parallel level: the synchronous prefixes of the async
callbacks run one by one against the unmodified pre-level state (writes
are deferred), each consuming its `stepStartTime` tick and evaluating. -/
inductive ParOutcome where
  | missing
  | ok (previousValue newValue : Value) (stepStart : ℕ)
  | failed (msg : String)
deriving Repr, DecidableEq

def parPhase1 (w : World) (env : ExecEnv) (st : ExecSt) (levelNodes : List String) :
    List (String × ParOutcome) × ExecSt :=
  levelNodes.foldl (fun (acc : List (String × ParOutcome) × ExecSt) nodeId =>
    match alGet env.graph.nodes nodeId with
    | none => (acc.1 ++ [(nodeId, .missing)], acc.2)
    | some node =>
      let p := dateNow w acc.2
      let previousValue := stateGet p.2.executionState nodeId
      match evaluateNode w env p.2 node with
      | (.ok v, st) => (acc.1 ++ [(nodeId, .ok previousValue v p.1)], st)
      | (.error m, st) => (acc.1 ++ [(nodeId, .failed m)], st)) ([], st)

/-- Phase 2 of a parallel level: the await-resumptions in callback order;
successes read their `stepDuration` tick, failures record the
`node_execution` error (with its `Date.now()` tick) and mark the node
`failed`. -/
def parPhase2 (w : World) (st : ExecSt) (results : List (String × ParOutcome)) :
    List (String × ParOutcome × ℤ) × ExecSt :=
  results.foldl (fun (acc : List (String × ParOutcome × ℤ) × ExecSt) r =>
    match r.2 with
    | .ok prev v s1 =>
      let p := dateNow w acc.2
      (acc.1 ++ [(r.1, .ok prev v s1, (p.1 : ℤ) - (s1 : ℤ))], p.2)
    | .failed m =>
      let p := dateNow w acc.2
      let st := addError p.2 .node_execution m p.1 (some r.1)
      let st := updateNodeState st r.1 .failed
      (acc.1 ++ [(r.1, .failed m, 0)], st)
    | .missing => (acc.1 ++ [(r.1, .missing, 0)], acc.2)) ([], st)

/-- Phase 3 of a parallel level (`results.forEach`): apply the changed
successful results to the state map, trace them and mark `completed`. -/
def parPhase3 (w : World) (env : ExecEnv) (st : ExecSt)
    (results : List (String × ParOutcome × ℤ)) : Bool × ExecSt :=
  results.foldl (fun (acc : Bool × ExecSt) r =>
    match r.2.1 with
    | .ok prev v _ =>
      if !valuesEqual prev v then
        let st := { acc.2 with executionState := alSet acc.2.executionState r.1 v }
        let st := addExecutionStep w st r.1 .execute prev v r.2.2
        let st :=
          if alHas env.graph.nodes r.1 then updateNodeState st r.1 .completed else st
        (true, st)
      else acc
    | _ => acc) (false, st)

/-- One pass of the `executeParallel` loop body. -/
def parPassBody (w : World) (env : ExecEnv) (st : ExecSt) : Bool × ExecSt :=
  let st := { st with currentIteration := st.currentIteration + 1 }
  (groupNodesByDependencyLevel env.graph).foldl (fun (acc : Bool × ExecSt) levelNodes =>
    let r1 := parPhase1 w env acc.2 levelNodes
    let r2 := parPhase2 w r1.2 r1.1
    let r3 := parPhase3 w env r2.2 r2.1
    (acc.1 || r3.1, r3.2)) (false, st)

/-- One pass of the `executeHybrid` loop body: every singleton component
through `processOneNode`, larger ones through `processCycle`. -/
def hybridPassBody (w : World) (env : ExecEnv) (st : ExecSt) : Bool × ExecSt :=
  let st := { st with currentIteration := st.currentIteration + 1 }
  (findStronglyConnectedComponents env.graph).foldl
    (fun (acc : Bool × ExecSt) component =>
      match component with
      | [nodeId] =>
        let r := processOneNode w env acc.2 nodeId
        (acc.1 || r.1, r.2)
      | _ =>
        let r := processCycle w env acc.2 component
        (acc.1 || r.1, r.2)) (false, st)

def timeoutMessage (timeout : ℕ) : String :=
  "Execution timeout after " ++ toString timeout ++ "ms"

def maxIterationsMessage (maxIterations : ℕ) : String :=
  "Maximum iterations (" ++ toString maxIterations ++ ") exceeded"

/-- The iteration loop shared verbatim by `executeSequential`,
`executeParallel` and `executeHybrid`: while changes remain and the
iteration cap is not reached, read the clock and throw on timeout, else
run one pass; after the loop, throw when the cap was reached.  A thrown
error carries the instance state, which the source keeps on `this`.
`fuel` is supplied above the remaining passes; its exhaustion branch
repeats the loop-exit check and is unreachable. -/
def execLoop (w : World) (passBody : ExecSt → Bool × ExecSt)
    (maxIterations timeout localStart : ℕ) :
    ℕ → Bool → ExecSt → Except (String × ExecSt) ExecSt
  | 0, _, st =>
    if st.currentIteration ≥ maxIterations then
      .error (maxIterationsMessage maxIterations, st)
    else .ok st
  | fuel + 1, hasChanges, st =>
    if hasChanges ∧ st.currentIteration < maxIterations then
      let p := dateNow w st
      if (p.1 : ℤ) - (localStart : ℤ) > (timeout : ℤ) then
        .error (timeoutMessage timeout, p.2)
      else
        let r := passBody p.2
        execLoop w passBody maxIterations timeout localStart fuel r.1 r.2
    else if st.currentIteration ≥ maxIterations then
      .error (maxIterationsMessage maxIterations, st)
    else .ok st

/-- `graph.execution.max_iterations || 1000`. -/
def effMaxIterations (graph : FormGraph) : ℕ :=
  if graph.execution.max_iterations = 0 then 1000 else graph.execution.max_iterations

/-- `graph.execution.timeout || 30000`. -/
def effTimeout (graph : FormGraph) : ℕ :=
  if graph.execution.timeout = 0 then 30000 else graph.execution.timeout

/-- `FormExecutor.executeSequential`. -/
def executeSequential (w : World) (env : ExecEnv) (st : ExecSt) :
    Except (String × ExecSt) ExecSt :=
  let maxIterations := effMaxIterations env.graph
  let timeout := effTimeout env.graph
  let p := dateNow w st
  execLoop w (seqPassBody w env) maxIterations timeout p.1 (maxIterations + 1) true p.2

/-- `FormExecutor.executeParallel`. -/
def executeParallel (w : World) (env : ExecEnv) (st : ExecSt) :
    Except (String × ExecSt) ExecSt :=
  let maxIterations := effMaxIterations env.graph
  let timeout := effTimeout env.graph
  let p := dateNow w st
  execLoop w (parPassBody w env) maxIterations timeout p.1 (maxIterations + 1) true p.2

/-- `FormExecutor.executeHybrid`. -/
def executeHybrid (w : World) (env : ExecEnv) (st : ExecSt) :
    Except (String × ExecSt) ExecSt :=
  let maxIterations := effMaxIterations env.graph
  let timeout := effTimeout env.graph
  let p := dateNow w st
  execLoop w (hybridPassBody w env) maxIterations timeout p.1 (maxIterations + 1) true p.2

/-- `FormExecutor.executeAdaptive`. -/
def executeAdaptive (w : World) (env : ExecEnv) (st : ExecSt) :
    Except (String × ExecSt) ExecSt :=
  let complexity := env.graph.extensions.compilation.map CompilationInfo.complexity
  let nodeCount := env.graph.nodes.length
  if nodeCount < 10 ∨ qvLt ((complexity.map Complexity.avgBranching).getD (qvInt 0)) (qvInt 2) then
    executeSequential w env st
  else if ((complexity.map Complexity.cycleCount).getD 0) = 0 ∧ nodeCount > 20 then
    executeParallel w env st
  else executeHybrid w env st

/-- Mode dispatch of `FormExecutor.execute` (the mode is a schema enum, so
the unknown-mode throw of the source is unreachable). -/
def runMode (w : World) (env : ExecEnv) (mode : ExecutionMode) (st : ExecSt) :
    Except (String × ExecSt) ExecSt :=
  match mode with
  | .sequential => executeSequential w env st
  | .parallel => executeParallel w env st
  | .adaptive => executeAdaptive w env st

/-- `FormExecutor.estimateMemoryUsage`. -/
def estimateMemoryUsage (σ : List (String × Value)) : ℕ :=
  σ.foldl (fun size p =>
    size + p.1.length * 2 + ((stringifyV p.2).getD "").length * 2) 0

/-- `FormExecutor.buildExecutionResult`: the `errors` field is populated
only on failure. -/
def buildExecutionResult (w : World) (success : Bool) (st : ExecSt) : ExecutionResult :=
  let p := dateNow w st
  let metrics : ExecutionMetrics :=
    { totalDuration := (p.1 : ℤ) - (st.startTime : ℤ)
      nodesExecuted := ((st.executionTrace.map ExecutionStep.nodeId).dedup).length
      iterationsCompleted := st.currentIteration
      memoryUsed := estimateMemoryUsage st.executionState
      formulasEvaluated := (st.executionTrace.filter (fun s => s.action = .evaluate)).length }
  { success := success
    finalState := st.executionState
    executionTrace := st.executionTrace
    metrics := metrics
    errors := if success then none else some st.errors }

/-- `FormExecutor.execute`: initialize, dispatch on
`config?.mode || graph.execution.mode`, build the result; a thrown
scheduler error is recorded as an `execution_error` and the result built
with `success := false`. -/
def execute (w : World) (env : ExecEnv) (inputs : List (String × Value))
    (config : Option ExecutionConfig) : ExecutionResult :=
  let st := initializeExecution w env.graph inputs
  let mode := (config.bind ExecutionConfig.mode).getD env.graph.execution.mode
  match runMode w env mode st with
  | .ok st => buildExecutionResult w true st
  | .error (msg, st) =>
    let p := dateNow w st
    let st := addError p.2 .execution_error msg p.1 none
    buildExecutionResult w false st

/-! ## Formula evaluator safety artifacts (`FormulaEvaluator`) -/

/-- The character whitelist of `FormulaEvaluator.evaluateExpression`
(`/^[a-zA-Z0-9_\s\+\-\*\/\(\)\.\,\[\]]+$/`). -/
def safeExprChar (c : Char) : Bool :=
  c.isAlphanum || c = '_' || c.isWhitespace || c = '+' || c = '-' || c = '*' ||
  c = '/' || c = '(' || c = ')' || c = '.' || c = ',' || c = '[' || c = ']'

/-- The safety check of `FormulaEvaluator.evaluateExpression`. -/
def safePattern (s : String) : Bool :=
  s != "" && s.toList.all safeExprChar

/-- The names bound by `FormExecutor.getBuiltinFunctions` — note that the
whole `Math` object is among them. -/
def builtinFunctionNames : List String :=
  ["Math", "abs", "max", "min", "sqrt", "pow", "sin", "cos", "tan", "log",
   "exp", "floor", "ceil", "round"]

/-- The parameter names of the `new Function` built by
`FormulaEvaluator.createSandbox` / `evaluateExpression`: the variable
keys, the function keys, and the additional globals spread in by
`createSandbox`. -/
def sandboxKeyNames (variableKeys functionKeys : List String) : List String :=
  variableKeys ++ functionKeys ++
  ["parseInt", "parseFloat", "isNaN", "isFinite", "String", "Number",
   "Boolean", "Array", "Object"]

/-! ## Concrete documents, graphs and worlds used by the claim instances -/

def exMetadata : FormMetadata :=
  { id := "doc1", name := "d", version := "1.0.0",
    created_at := "2024-01-01T00:00:00Z", updated_at := "2024-01-01T00:00:00Z" }

/-- The zero-clock world: every `Date.now()` reads 0 (a determinized run
in which no wall-clock time passes). -/
def zeroWorld : World := fun _ => 0

def trivialFormulaFn : FormulaFn := fun _ _ => .error "no evaluator"

def noCustomEvals : String → Option CustomEvalFn := fun _ => none

def mkEnv (g : FormGraph) : ExecEnv :=
  { graph := g, fEval := trivialFormulaFn, customEvals := noCustomEvals }

def exConditionNode (i : String) : FormNode :=
  { id := i, type := .condition, label := i }

def exConceptNode (i : String) (v : Option Value) : FormNode :=
  { id := i, type := .concept, label := i, data := { value := v } }

def exInfluenceRel (i s t : String) : FormRelation :=
  { id := i, type := .influences, source := s, target := t }

def exGuardedRel (i s t : String) (v : Bool) : FormRelation :=
  { id := i, type := .influences, source := s, target := t,
    conditions := some [{ field := "data.value", operator := "eq", value := .bool v }] }

/-- Two condition nodes whose guarded relations make their boolean values
alternate forever, with `max_iterations = 5` (spec scenario 5). -/
def docAlternating : FormFile :=
  { metadata := exMetadata,
    nodes := [exConditionNode "a", exConditionNode "b"],
    relations := [exGuardedRel "r1" "b" "a" true, exGuardedRel "r2" "a" "b" false],
    execution := some { max_iterations := some 5, mode := some .sequential } }

/-- Two concept nodes joined by mutual `influences` relations: cycle-free
in the `{depends_on, causes, triggers}` subgraph (the validator accepts
it), but cyclic in the full execution adjacency. -/
def docInfluenceCycle : FormFile :=
  { metadata := exMetadata,
    nodes := [exConceptNode "a" (some (.num (qvInt 1))), exConceptNode "b" none],
    relations := [exInfluenceRel "r1" "a" "b", exInfluenceRel "r2" "b" "a"] }

def graphInfluenceCycle : FormGraph := compile 0 docInfluenceCycle

/-! ## C2 artifacts -/

/-- C2: the formula evaluator's safety check accepts `Math.random()` (and
`Date.now()`), and `Math` — the entire `Math` object, whose `random`
method is a fresh-randomness source — is among the names
`getBuiltinFunctions` binds into the sandbox.  Since the sandbox of
`createSandbox` is realized by `new Function`, whose body also resolves
unshadowed names against the JS globals, an accepted expression can
observe randomness and the wall clock, contradicting the claimed
determinism and isolation. -/
theorem c2_sandbox_admits_randomness :
    safePattern "Math.random()" = true ∧
    safePattern "Date.now()" = true ∧
    "Math" ∈ builtinFunctionNames ∧
    "Array" ∈ sandboxKeyNames [] [] ∧ "Object" ∈ sandboxKeyNames [] [] := by
  decide

/-! ## C5 artifacts -/

/-- C5 counterexample: in `graphInfluenceCycle` the nodes `a` and `b` are
mutually reachable (one strongly-connected component of size 2), yet
`findStronglyConnectedComponents` reports them as two separate
singleton components — the SCCs are not identified. -/
theorem c5_counterexample :
    findStronglyConnectedComponents graphInfluenceCycle = [["a"], ["b"]] ∧
    (alGet graphInfluenceCycle.adjacencyList "a").getD [] = ["b"] ∧
    (alGet graphInfluenceCycle.adjacencyList "b").getD [] = ["a"] := by
  decide

/-- C5 (amended): `findStronglyConnectedComponents` is a placeholder that
returns every node as its own singleton component, so a hybrid pass
evaluates every node through the normal single-node step
(`processOneNode`) and the size>1 branch (`processCycle`, capped at 10
rounds) is unreachable. -/
theorem c5_amended (w : World) (env : ExecEnv) (st : ExecSt) :
    findStronglyConnectedComponents env.graph =
      (alKeys env.graph.nodes).map (fun nodeId => [nodeId]) ∧
    hybridPassBody w env st =
      (alKeys env.graph.nodes).foldl (fun (acc : Bool × ExecSt) nodeId =>
        let r := processOneNode w env acc.2 nodeId
        (acc.1 || r.1, r.2))
        (false, { st with currentIteration := st.currentIteration + 1 }) := by
  refine ⟨rfl, ?_⟩
  show (findStronglyConnectedComponents env.graph).foldl _ _ = _
  rw [findStronglyConnectedComponents, List.foldl_map]

/-! ## C7 artifacts -/

/-- A concept node with stored value 7 whose single predecessor carries an
explicit relation strength of 0. -/
def docStrengthZero : FormFile :=
  { metadata := exMetadata,
    nodes := [exConceptNode "p" (some (.num (qvInt 5))),
              exConceptNode "c" (some (.num (qvInt 7)))],
    relations := [{ id := "r1", type := .influences, source := "p", target := "c",
                    strength := some (qvInt 0) }] }

def graphStrengthZero : FormGraph := compile 0 docStrengthZero

def sigmaStrengthZero : List (String × Value) :=
  (initializeExecution zeroWorld graphStrengthZero []).executionState

/-- C7 counterexample: the relation `p → c` has explicit strength 0, so by
the claim the total weight is zero and the concept should keep its current
state value 7; the code coerces the zero strength to weight 1.0
(`relation?.strength || 1.0`) and yields the predecessor's value 5. -/
theorem c7_counterexample :
    (alGet graphStrengthZero.relations "r1").bind FormRelation.strength = some (qvInt 0) ∧
    stateGet sigmaStrengthZero "c" = .num (qvInt 7) ∧
    evaluateConcept graphStrengthZero sigmaStrengthZero (exConceptNode "c" (some (.num (qvInt 7)))) =
      .num (qvInt 5) := by
  decide

/-- Weight of a predecessor in the amended concept contract (C7): the
relation's strength, except that an absent relation, an absent strength,
or an explicit strength of value 0 all weigh 1. -/
def conceptWeight (graph : FormGraph) (sourceId targetId : String) : QV :=
  match findRelation graph sourceId targetId with
  | some r =>
    match r.strength with
    | some q => if q.num = 0 then qvInt 1 else q
    | none => qvInt 1
  | none => qvInt 1

/-- The number-valued predecessors of a concept node with their values
and weights, in reverse-adjacency order. -/
def conceptContributions (graph : FormGraph) (σ : List (String × Value))
    (node : FormNode) : List (QV × QV) :=
  ((alGet graph.reverseAdjacencyList node.id).getD []).filterMap (fun sourceId =>
    match stateGet σ sourceId with
    | .num q => some (q, conceptWeight graph sourceId node.id)
    | _ => none)

/-- The amended concept-node contract (C7), following the corrected spec
sentence: no predecessors → stored value (else current state value); with
predecessors, the weighted average over number-valued predecessors where
the weight is `conceptWeight` (strength, except 0/absent count as 1);
when no predecessor is number-valued (total weight zero) → current state
value. -/
def conceptSpecAmended (graph : FormGraph) (σ : List (String × Value))
    (node : FormNode) : Value :=
  let preds := (alGet graph.reverseAdjacencyList node.id).getD []
  if preds.length = 0 then
    match node.data.value with
    | some v => v
    | none => stateGet σ node.id
  else
    let contribs := conceptContributions graph σ node
    let totalWeight := contribs.foldl (fun x c => qvAdd x c.2) (qvInt 0)
    let weightedSum := contribs.foldl (fun x c => qvAdd x (qvMul c.1 c.2)) (qvInt 0)
    if qvLt (qvInt 0) totalWeight then .num (qvDiv weightedSum totalWeight)
    else stateGet σ node.id

lemma concept_fold_spec (graph : FormGraph) (σ : List (String × Value)) (nid : String) :
    ∀ (preds : List String) (a b : QV),
      (∀ s ∈ preds, stateGet σ s ≠ Value.nan) →
      preds.foldl (fun (acc : QV × QV × Bool) sourceId =>
        let relation := findRelation graph sourceId nid
        let sourceValue := stateGet σ sourceId
        let weight : QV :=
          match relation with
          | some r =>
            match r.strength with
            | some q => if q.num = 0 then qvInt 1 else q
            | none => qvInt 1
          | none => qvInt 1
        match sourceValue with
        | .num q => (qvAdd acc.1 weight, qvAdd acc.2.1 (qvMul q weight), acc.2.2)
        | .nan => (qvAdd acc.1 weight, acc.2.1, true)
        | _ => acc) (a, b, false) =
      ((preds.filterMap (fun sourceId =>
          match stateGet σ sourceId with
          | .num q => some (q, conceptWeight graph sourceId nid)
          | _ => none)).foldl (fun x c => qvAdd x c.2) a,
       (preds.filterMap (fun sourceId =>
          match stateGet σ sourceId with
          | .num q => some (q, conceptWeight graph sourceId nid)
          | _ => none)).foldl (fun x c => qvAdd x (qvMul c.1 c.2)) b, false) := by
  intro preds
  induction preds with
  | nil => intro a b _; rfl
  | cons s rest ih =>
    intro a b h
    have hs : stateGet σ s ≠ Value.nan := h s (List.mem_cons_self _ _)
    have hrest : ∀ x ∈ rest, stateGet σ x ≠ Value.nan :=
      fun x hx => h x (List.mem_cons_of_mem _ hx)
    simp only [List.foldl_cons, List.filterMap_cons]
    cases hv : stateGet σ s with
    | num q =>
      have := ih (qvAdd a (conceptWeight graph s nid))
        (qvAdd b (qvMul q (conceptWeight graph s nid))) hrest
      simpa [conceptWeight, hv] using this
    | nan => exact absurd hv hs
    | null => simpa [hv] using ih a b hrest
    | undef => simpa [hv] using ih a b hrest
    | bool v => simpa [hv] using ih a b hrest
    | str v => simpa [hv] using ih a b hrest

/-- C7 (amended): on states whose predecessor values are not NaN,
`evaluateConcept` computes exactly the amended contract
`conceptSpecAmended`: stored value (else current state) without
predecessors; otherwise the weighted average over number-valued
predecessors with zero/absent strengths weighing 1, falling back to the
current state value when no predecessor is number-valued. -/
theorem c7_amended (graph : FormGraph) (σ : List (String × Value)) (node : FormNode)
    (h : ∀ s ∈ (alGet graph.reverseAdjacencyList node.id).getD [],
        stateGet σ s ≠ Value.nan) :
    evaluateConcept graph σ node = conceptSpecAmended graph σ node := by
  simp only [evaluateConcept, conceptSpecAmended, conceptContributions]
  split
  · rfl
  · rw [concept_fold_spec graph σ node.id _ (qvInt 0) (qvInt 0) h]; rfl

/-- C7 witness: the amended theorem applied to the strength-zero
instance. -/
theorem c7_amended_witness :
    (∀ s ∈ (alGet graphStrengthZero.reverseAdjacencyList "c").getD [],
        stateGet sigmaStrengthZero s ≠ Value.nan) ∧
    evaluateConcept graphStrengthZero sigmaStrengthZero
        (exConceptNode "c" (some (.num (qvInt 7)))) =
      conceptSpecAmended graphStrengthZero sigmaStrengthZero
        (exConceptNode "c" (some (.num (qvInt 7)))) :=
  ⟨by decide, c7_amended _ _ _ (by decide)⟩

/-! ## C8 artifacts -/

lemma alGet_alSet_self {α : Type} (m : List (String × α)) (k : String) (v : α) :
    alGet (alSet m k v) k = some v := by
  induction m with
  | nil => simp [alSet, alGet]
  | cons p rest ih =>
    obtain ⟨k', v'⟩ := p
    by_cases hk : k' = k
    · simp [alSet, alGet, hk]
    · simp [alSet, alGet, hk, ih]

lemma alGet_alSet_ne {α : Type} (m : List (String × α)) (k k' : String) (v : α)
    (h : k' ≠ k) : alGet (alSet m k' v) k = alGet m k := by
  induction m with
  | nil => simp [alSet, alGet, h]
  | cons p rest ih =>
    obtain ⟨k0, v0⟩ := p
    by_cases hk : k0 = k'
    · simp [alSet, alGet, hk, h]
    · simp only [alSet, alGet, hk, if_false]
      by_cases hk2 : k0 = k <;> simp [alGet, hk2, ih]

lemma alGet_foldl_alSet_of_not_mem {α : Type} (key : α → String) (l : List α)
    (m : List (String × α)) (k : String) (h : ∀ x ∈ l, key x ≠ k) :
    alGet (l.foldl (fun acc x => alSet acc (key x) x) m) k = alGet m k := by
  induction l generalizing m with
  | nil => rfl
  | cons x xs ih =>
    simp only [List.foldl_cons]
    rw [ih _ (fun y hy => h y (List.mem_cons_of_mem _ hy))]
    exact alGet_alSet_ne _ _ _ _ (h x (List.mem_cons_self _ _))

lemma alGet_foldl_alSet_mem {α : Type} (key : α → String) (l : List α)
    (m : List (String × α)) (x : α) (hx : x ∈ l) (hnd : (l.map key).Nodup) :
    alGet (l.foldl (fun acc y => alSet acc (key y) y) m) (key x) = some x := by
  induction l generalizing m with
  | nil => cases hx
  | cons y ys ih =>
    simp only [List.foldl_cons]
    have hnd' : (∀ z ∈ ys, ¬ key z = key y) ∧ (ys.map key).Nodup := by simpa using hnd
    rcases List.mem_cons.mp hx with rfl | hx'
    · rw [alGet_foldl_alSet_of_not_mem key ys _ _ (fun z hz => hnd'.1 z hz), alGet_alSet_self]
    · exact ih _ hx' hnd'.2

/-- The amended node-defaulting contract (C8): `confidence` and `weight`
default to 1.0 when absent **or explicitly zero** (JS falsiness);
`state` defaults to `active` only when absent. -/
def nodeDefaultsSpec (d : NodeData) : NodeData :=
  { d with
    confidence :=
      match d.confidence with
      | none => some (qvInt 1)
      | some q => if q.num = 0 then some (qvInt 1) else some q
    weight :=
      match d.weight with
      | none => some (qvInt 1)
      | some q => if q.num = 0 then some (qvInt 1) else some q
    state := some (d.state.getD .active) }

/-- The amended relation-defaulting contract (C8): `strength` and
`bidirectional` are defaulted exactly when absent (so explicit `0` and
`false` survive). -/
def relationDefaultsSpec (r : FormRelation) : FormRelation :=
  { r with
    strength := some (r.strength.getD (qvInt 1))
    bidirectional := some (r.bidirectional.getD false) }

lemma compileNodeDefaults_eq_spec (node : FormNode) :
    compileNodeDefaults node = { node with data := nodeDefaultsSpec node.data } := by
  unfold compileNodeDefaults nodeDefaultsSpec jsFalsyNum
  obtain ⟨v, c, wt, pa, s⟩ := node.data
  cases c <;> cases wt <;> cases s <;>
    simp_all [Option.getD, beq_iff_eq] <;> split <;> simp_all <;> split <;> simp_all

lemma compileRelationDefaults_eq_spec (rel : FormRelation) :
    compileRelationDefaults rel = relationDefaultsSpec rel := by
  obtain ⟨i, ty, s, tg, lb, st, bd, cd, ct, ex⟩ := rel
  unfold compileRelationDefaults relationDefaultsSpec
  cases st <;> cases bd <;> simp [Option.getD]

lemma compileNodeDefaults_id (node : FormNode) :
    (compileNodeDefaults node).id = node.id := rfl

lemma compileRelationDefaults_id (rel : FormRelation) :
    (compileRelationDefaults rel).id = rel.id := by
  rw [compileRelationDefaults_eq_spec]; rfl

/-- A document whose single node carries explicit confidence 0 and
weight 0. -/
def docConfidenceZero : FormFile :=
  { metadata := exMetadata, relations := [],
    nodes := [{ id := "n", type := .concept, label := "n",
                data := { confidence := some (qvInt 0), weight := some (qvInt 0) } }] }

/-- C8 counterexample: an explicit confidence of 0 (and weight of 0) is
*not* left unchanged by `compile`: the falsy-guarded defaulting replaces
both with 1.0. -/
theorem c8_counterexample :
    ((compile 0 docConfidenceZero).nodes.map
      (fun p => (p.2.data.confidence, p.2.data.weight))) =
      [(some (qvInt 1), some (qvInt 1))] := by
  decide

/-- C8 (amended): for documents with distinct node and relation ids,
compilation maps each node's data through `nodeDefaultsSpec` (defaults
applied when the field is absent or — for confidence/weight — explicitly
zero) and each relation through `relationDefaultsSpec` (defaults exactly
when absent), leaving every other field unchanged. -/
theorem c8_amended (t : ℕ) (form : FormFile)
    (hn : (form.nodes.map FormNode.id).Nodup)
    (hr : (form.relations.map FormRelation.id).Nodup) :
    (∀ node ∈ form.nodes,
      alGet (compile t form).nodes node.id =
        some { node with data := nodeDefaultsSpec node.data }) ∧
    (∀ rel ∈ form.relations,
      alGet (compile t form).relations rel.id = some (relationDefaultsSpec rel)) := by
  constructor
  · intro node hmem
    have hx : compileNodeDefaults node ∈ form.nodes.map compileNodeDefaults :=
      List.mem_map_of_mem _ hmem
    have hnd : ((form.nodes.map compileNodeDefaults).map FormNode.id).Nodup := by
      rw [List.map_map]
      have : (FormNode.id ∘ compileNodeDefaults) = FormNode.id := by
        funext n; exact compileNodeDefaults_id n
      rw [this]; exact hn
    have := alGet_foldl_alSet_mem FormNode.id (form.nodes.map compileNodeDefaults)
      [] (compileNodeDefaults node) hx hnd
    rw [compileNodeDefaults_id] at this
    show alGet ((form.nodes.map compileNodeDefaults).foldl
      (fun acc n => alSet acc n.id n) []) node.id = _
    rw [this, compileNodeDefaults_eq_spec]
  · intro rel hmem
    have hx : compileRelationDefaults rel ∈ form.relations.map compileRelationDefaults :=
      List.mem_map_of_mem _ hmem
    have hnd : ((form.relations.map compileRelationDefaults).map FormRelation.id).Nodup := by
      rw [List.map_map]
      have : (FormRelation.id ∘ compileRelationDefaults) = FormRelation.id := by
        funext r; exact compileRelationDefaults_id r
      rw [this]; exact hr
    have := alGet_foldl_alSet_mem FormRelation.id (form.relations.map compileRelationDefaults)
      [] (compileRelationDefaults rel) hx hnd
    rw [compileRelationDefaults_id] at this
    show alGet ((form.relations.map compileRelationDefaults).foldl
      (fun acc r => alSet acc r.id r) []) rel.id = _
    rw [this, compileRelationDefaults_eq_spec]

/-- A document exercising explicit values: confidence 1/2 kept, absent
weight defaulted, pending state kept; relation strength 0 and
bidirectional false kept verbatim. -/
def docDefaultsWitness : FormFile :=
  { metadata := exMetadata,
    nodes := [{ id := "n1", type := .concept, label := "n",
                data := { confidence := some (qvMk 1 2), state := some .pending } }],
    relations := [{ id := "r1", type := .causes, source := "n1", target := "n1",
                    strength := some (qvInt 0), bidirectional := some false }] }

/-- C8 witness: the amended theorem applied to `docDefaultsWitness`. -/
theorem c8_amended_witness :
    ((docDefaultsWitness.nodes.map FormNode.id).Nodup ∧
     (docDefaultsWitness.relations.map FormRelation.id).Nodup) ∧
    ((∀ node ∈ docDefaultsWitness.nodes,
        alGet (compile 0 docDefaultsWitness).nodes node.id =
          some { node with data := nodeDefaultsSpec node.data }) ∧
     (∀ rel ∈ docDefaultsWitness.relations,
        alGet (compile 0 docDefaultsWitness).relations rel.id =
          some (relationDefaultsSpec rel))) :=
  ⟨⟨by decide, by decide⟩, c8_amended 0 docDefaultsWitness (by decide) (by decide)⟩

/-! ## C1 artifacts -/

/-- Syntactic restatement of `validateFormulaSyntax` (for rewriting
without ι-normalization). -/
lemma validateFormulaSyntax_def (formula nodeId : String) :
    validateFormulaSyntax formula nodeId =
      (if (parenScan formula.toList 0).2 then [unbalancedError nodeId] else []) ++
      (if (parenScan formula.toList 0).1 ≠ 0 then [unbalancedError nodeId] else []) ++
      dangerousFunctions.foldr (fun func acc =>
        (if containsSubstr formula func then
          [logicErrorNode ("Potentially dangerous function '" ++ func ++
            "' detected in formula") nodeId]
         else []) ++ acc) [] := rfl

/-- Syntactic restatement of `validateLogicalConsistency`. -/
lemma validateLogicalConsistency_def (form : FormFile) :
    validateLogicalConsistency form =
      (detectCycles form).map (fun cycle =>
        cycleError ("Circular dependency detected: " ++ String.intercalate " -> " cycle)) ++
      form.nodes.foldr (fun node acc =>
        (if node.type = .formula then
          match node.data.value with
          | some v =>
            if truthy v then
              match v with
              | .str s => validateFormulaSyntax s node.id
              | _ => []
            else []
          | none => []
         else []) ++ acc) [] ++
      form.relations.foldr (fun rel acc =>
        ((rel.conditions.getD []).foldr (fun c acc2 =>
          (if c.operator ∈ allowedOperators then [] else
            [logicErrorRel ("Invalid condition operator: " ++ c.operator) rel.id]) ++ acc2) []) ++
        acc) [] := rfl

lemma mem_foldr_append {α β : Type} (f : α → List β) (l : List α) (x : β) (a : α)
    (ha : a ∈ l) (hx : x ∈ f a) :
    x ∈ l.foldr (fun a acc => f a ++ acc) [] := by
  induction l with
  | nil => cases ha
  | cons y ys ih =>
    simp only [List.foldr_cons, List.mem_append]
    rcases List.mem_cons.mp ha with rfl | h'
    · exact Or.inl hx
    · exact Or.inr (ih h')

lemma filter_error_not_empty {e : ValidationError} {l : List ValidationError}
    (hmem : e ∈ l) (hsev : e.severity = .error) :
    (l.filter (fun e => e.severity = Severity.error)).isEmpty = false := by
  have hf : e ∈ l.filter (fun e => e.severity = Severity.error) :=
    List.mem_filter.mpr ⟨hmem, by simp [hsev]⟩
  simpa [List.isEmpty_iff] using List.ne_nil_of_mem hf

/-- A formula node whose unsafe expression lives only in
`parameters.expression` — the field the executor evaluates; `data.value`
is absent. -/
def docSandboxEscapeParams : FormFile :=
  { metadata := exMetadata,
    nodes := [{ id := "f", type := .formula, label := "F",
                data := { parameters := some { expression := some "require(x)" } } }],
    relations := [] }

/-- C1 counterexample: the document stores `require(x)` in the formula
node's `parameters.expression` (the executor-evaluated field), yet
`validate` returns `valid = true` — the validator inspects only
`data.value`. -/
theorem c1_counterexample :
    ((docSandboxEscapeParams.nodes.head?).bind
        (fun n => n.data.parameters.bind Params.expression)) = some "require(x)" ∧
    containsSubstr "require(x)" "require" = true ∧
    "require" ∈ dangerousFunctions ∧
    (validate docSandboxEscapeParams).valid = true := by
  decide

/-- C1 (amended): when the unsafe token occurs in the formula node's
`data.value` (a non-empty string), `validate` does reject the document
with a `logic` error naming the token and the node. -/
theorem c1_amended (form : FormFile) (node : FormNode) (s tok : String)
    (hschema : schemaErrors form = [])
    (hmem : node ∈ form.nodes) (hty : node.type = .formula)
    (hval : node.data.value = some (.str s)) (hs : s ≠ "")
    (htok : tok ∈ dangerousFunctions) (hsub : containsSubstr s tok = true) :
    (validate form).valid = false ∧
    ∃ e ∈ (validate form).errors, e.type = .logic ∧ e.severity = .error ∧
      e.nodeId = some node.id ∧
      e.message = "Potentially dangerous function '" ++ tok ++ "' detected in formula" := by
  have herr : logicErrorNode
      ("Potentially dangerous function '" ++ tok ++ "' detected in formula") node.id
      ∈ validateFormulaSyntax s node.id := by
    have h3 : logicErrorNode
        ("Potentially dangerous function '" ++ tok ++ "' detected in formula") node.id
        ∈ dangerousFunctions.foldr (fun func acc =>
            (if containsSubstr s func then
              [logicErrorNode ("Potentially dangerous function '" ++ func ++
                "' detected in formula") node.id]
             else []) ++ acc) [] :=
      mem_foldr_append _ _ _ tok htok (by simp [hsub])
    rw [validateFormulaSyntax_def]
    exact List.mem_append_right _ h3
  have hlog : logicErrorNode
      ("Potentially dangerous function '" ++ tok ++ "' detected in formula") node.id
      ∈ validateLogicalConsistency form := by
    have hmid : logicErrorNode
        ("Potentially dangerous function '" ++ tok ++ "' detected in formula") node.id
        ∈ form.nodes.foldr (fun node acc =>
            (if node.type = .formula then
              match node.data.value with
              | some v =>
                if truthy v then
                  match v with
                  | .str s => validateFormulaSyntax s node.id
                  | _ => []
                else []
              | none => []
             else []) ++ acc) [] := by
      refine mem_foldr_append _ _ _ node hmem ?_
      have htruthy : truthy (.str s) = true := by simp [truthy, hs]
      simpa [hty, hval, htruthy] using herr
    rw [validateLogicalConsistency_def]
    exact List.mem_append_left _ (List.mem_append_right _ hmid)
  have hErrs : (validate form).errors =
      validateReferences form ++ validateLogicalConsistency form := by
    unfold validate; rw [hschema]; simp
  have hValid : (validate form).valid =
      ((validateReferences form ++ validateLogicalConsistency form).filter
        (fun e => e.severity = Severity.error)).isEmpty := by
    unfold validate; rw [hschema]; simp
  constructor
  · rw [hValid]
    exact filter_error_not_empty (List.mem_append_right _ hlog) rfl
  · refine ⟨logicErrorNode
      ("Potentially dangerous function '" ++ tok ++ "' detected in formula") node.id,
      ?_, rfl, rfl, rfl, rfl⟩
    rw [hErrs]
    exact List.mem_append_right _ hlog

/-- The formula node of `docSandboxEscapeValue`. -/
def fNodeEscapeValue : FormNode :=
  { id := "f", type := .formula, label := "F",
    data := { value := some (.str "require(x)") } }

/-- The same unsafe expression stored in `data.value`, where the
validator does look. -/
def docSandboxEscapeValue : FormFile :=
  { metadata := exMetadata, nodes := [fNodeEscapeValue], relations := [] }

/-- C1 witness: the amended theorem applied to `docSandboxEscapeValue`. -/
theorem c1_amended_witness :
    (schemaErrors docSandboxEscapeValue = [] ∧
     fNodeEscapeValue ∈ docSandboxEscapeValue.nodes ∧
     containsSubstr "require(x)" "require" = true) ∧
    ((validate docSandboxEscapeValue).valid = false ∧
     ∃ e ∈ (validate docSandboxEscapeValue).errors,
       e.type = .logic ∧ e.severity = .error ∧ e.nodeId = some fNodeEscapeValue.id ∧
       e.message = "Potentially dangerous function '" ++ "require" ++ "' detected in formula") :=
  ⟨⟨by decide, by decide, by decide⟩,
   c1_amended docSandboxEscapeValue fNodeEscapeValue "require(x)" "require"
     (by decide) (by decide) (by decide) (by decide) (by decide) (by decide) (by decide)⟩

/-! ## C9 artifacts -/

/-- Consecutive-pairs ordering invariant of a stable sort. -/
def chainLe {α : Type} (le : α → α → Bool) : List α → Prop
  | [] => True
  | [_] => True
  | x :: y :: rest => le x y = true ∧ chainLe le (y :: rest)

lemma qvLe_total (a b : QV) : qvLe a b = true ∨ qvLe b a = true := by
  simp only [qvLe, decide_eq_true_eq]
  exact Int.le_total _ _

lemma chainLe_cons_cons {α : Type} {le : α → α → Bool} {x y : α} {l : List α} :
    chainLe le (x :: y :: l) ↔ le x y = true ∧ chainLe le (y :: l) := Iff.rfl

lemma chainLe_singleton {α : Type} (le : α → α → Bool) (x : α) :
    chainLe le [x] := trivial

lemma mem_insertBy {α : Type} (le : α → α → Bool) (x y : α) :
    ∀ l : List α, y ∈ insertBy le x l → y = x ∨ y ∈ l := by
  intro l
  induction l with
  | nil => intro h; simpa [insertBy] using h
  | cons z zs ih =>
    intro h
    by_cases hxz : le x z = true
    · rw [insertBy, if_pos hxz] at h
      rcases List.mem_cons.mp h with h1 | h1
      · exact Or.inl h1
      · exact Or.inr h1
    · rw [insertBy, if_neg hxz] at h
      rcases List.mem_cons.mp h with h1 | h1
      · exact Or.inr (by simp [h1])
      · rcases ih h1 with h2 | h2
        · exact Or.inl h2
        · exact Or.inr (List.mem_cons_of_mem _ h2)

lemma mem_sortBy {α : Type} (le : α → α → Bool) (y : α) :
    ∀ l : List α, y ∈ sortBy le l → y ∈ l := by
  intro l
  induction l with
  | nil => intro h; simp [sortBy] at h
  | cons z zs ih =>
    intro h
    rw [sortBy] at h
    rcases mem_insertBy le z y _ h with h' | h'
    · simp [h']
    · exact List.mem_cons_of_mem _ (ih h')

lemma insertBy_chain {α : Type} (le : α → α → Bool)
    (htot : ∀ a b, le a b = true ∨ le b a = true) (x : α) :
    ∀ l : List α, chainLe le l → chainLe le (insertBy le x l) := by
  intro l
  induction l with
  | nil => intro _; exact chainLe_singleton le x
  | cons y ys ih =>
    intro hl
    by_cases hxy : le x y = true
    · rw [insertBy, if_pos hxy]
      exact chainLe_cons_cons.mpr ⟨hxy, hl⟩
    · have hyx : le y x = true := (htot x y).resolve_left hxy
      rw [insertBy, if_neg hxy]
      cases ys with
      | nil =>
        exact chainLe_cons_cons.mpr ⟨hyx, chainLe_singleton le x⟩
      | cons z zs =>
        have hl' := chainLe_cons_cons.mp hl
        by_cases hxz : le x z = true
        · rw [insertBy, if_pos hxz]
          exact chainLe_cons_cons.mpr ⟨hyx, chainLe_cons_cons.mpr ⟨hxz, hl'.2⟩⟩
        · rw [insertBy, if_neg hxz]
          have hchain' : chainLe le (z :: insertBy le x zs) := by
            have h2 := ih hl'.2
            rwa [insertBy, if_neg hxz] at h2
          exact chainLe_cons_cons.mpr ⟨hl'.1, hchain'⟩

lemma sortBy_chain {α : Type} (le : α → α → Bool)
    (htot : ∀ a b, le a b = true ∨ le b a = true) (l : List α) :
    chainLe le (sortBy le l) := by
  induction l with
  | nil => exact trivial
  | cons x xs ih =>
    rw [sortBy]
    exact insertBy_chain le htot x _ ih

lemma sortBy_of_chain {α : Type} (le : α → α → Bool) :
    ∀ l : List α, chainLe le l → sortBy le l = l := by
  intro l
  induction l with
  | nil => intro _; rfl
  | cons x xs ih =>
    intro hl
    cases xs with
    | nil => rfl
    | cons y ys =>
      have hl' := chainLe_cons_cons.mp hl
      have hstep : sortBy le (x :: y :: ys) = insertBy le x (sortBy le (y :: ys)) := rfl
      rw [hstep, ih hl'.2, insertBy, if_pos hl'.1]

lemma sortBy_idem {α : Type} (le : α → α → Bool)
    (htot : ∀ a b, le a b = true ∨ le b a = true) (l : List α) :
    sortBy le (sortBy le l) = sortBy le l :=
  sortBy_of_chain le _ (sortBy_chain le htot l)

/-- One adjacency entry of the speed optimization. -/
def speedSortTargets (relations : List (String × FormRelation)) (src : String)
    (targets : List String) : List String :=
  (sortBy (fun a b => qvLe b.2 a.2)
    (targets.map (fun targetId => (targetId, strengthOfPair relations src targetId)))).map
    Prod.fst

lemma speedSortTargets_idem (relations : List (String × FormRelation)) (src : String)
    (targets : List String) :
    speedSortTargets relations src (speedSortTargets relations src targets) =
      speedSortTargets relations src targets := by
  unfold speedSortTargets
  set le : (String × QV) → (String × QV) → Bool := fun a b => qvLe b.2 a.2 with hle
  have htot : ∀ a b, le a b = true ∨ le b a = true := fun a b => qvLe_total b.2 a.2
  set pairs := targets.map (fun targetId => (targetId, strengthOfPair relations src targetId))
    with hpairs
  have hremap : ((sortBy le pairs).map Prod.fst).map
      (fun targetId => (targetId, strengthOfPair relations src targetId)) = sortBy le pairs := by
    rw [List.map_map]
    have hpt : ∀ p ∈ sortBy le pairs,
        ((fun targetId => (targetId, strengthOfPair relations src targetId)) ∘ Prod.fst) p = p := by
      intro p hp
      have hp' : p ∈ pairs := mem_sortBy le p _ hp
      rw [hpairs] at hp'
      rcases List.mem_map.mp hp' with ⟨t, _, rfl⟩
      rfl
    calc (sortBy le pairs).map _ = (sortBy le pairs).map id := List.map_congr_left hpt
    _ = sortBy le pairs := List.map_id _
  rw [hremap, sortBy_idem le htot]

/-- C9 counterexample: applying an optimization twice stamps a later
timestamp into `extensions.optimization`, so the literal idempotence
equation fails whenever the clock has advanced between the two calls. -/
theorem c9_counterexample :
    optimizeForExecution (optimizeForExecution graphInfluenceCycle .speed 0) .speed 1 ≠
      optimizeForExecution graphInfluenceCycle .speed 0 := by
  decide

lemma speedAdj_idem (rels : List (String × FormRelation)) (adj : List (String × List String)) :
    (adj.map (fun p => (p.1, speedSortTargets rels p.1 p.2))).map
      (fun p => (p.1, speedSortTargets rels p.1 p.2)) =
    adj.map (fun p => (p.1, speedSortTargets rels p.1 p.2)) := by
  rw [List.map_map]
  refine List.map_congr_left ?_
  intro p _
  show (p.1, speedSortTargets rels p.1 (speedSortTargets rels p.1 p.2)) =
    (p.1, speedSortTargets rels p.1 p.2)
  rw [speedSortTargets_idem]

lemma optimizeForSpeed_idem (t : ℕ) (g : FormGraph) :
    optimizeForSpeed t (optimizeForSpeed t g) = optimizeForSpeed t g := by
  obtain ⟨md, nodes, rels, adj, radj, exec, ext⟩ := g
  obtain ⟨user, comp, opt⟩ := ext
  show FormGraph.mk md nodes rels
      ((adj.map (fun p => (p.1, speedSortTargets rels p.1 p.2))).map
        (fun p => (p.1, speedSortTargets rels p.1 p.2))) radj exec
      ⟨user, comp, some ⟨"speed", true, t⟩⟩ =
    FormGraph.mk md nodes rels
      (adj.map (fun p => (p.1, speedSortTargets rels p.1 p.2))) radj exec
      ⟨user, comp, some ⟨"speed", true, t⟩⟩
  rw [speedAdj_idem]

lemma jsIsOne_none : jsIsOne none = false := rfl

lemma memoryNodeStrip_idem (node : FormNode) :
    memoryNodeStrip (memoryNodeStrip node) = memoryNodeStrip node := by
  obtain ⟨i, ty, lb, ds, data, pos, ct, ex⟩ := node
  obtain ⟨v, c, w, pr, st⟩ := data
  by_cases h1 : jsIsOne c = true <;> by_cases h2 : jsIsOne w = true <;>
    by_cases h3 : st = some NodeState.active <;>
      simp [memoryNodeStrip, jsIsOne_none, h1, h2, h3]

lemma memoryRelStrip_idem (rel : FormRelation) :
    memoryRelStrip (memoryRelStrip rel) = memoryRelStrip rel := by
  obtain ⟨i, ty, s, tg, lb, st, bd, cd, ct, ex⟩ := rel
  by_cases h1 : jsIsOne st = true <;> by_cases h2 : bd = some false <;>
    simp [memoryRelStrip, jsIsOne_none, h1, h2]

lemma optimizeForMemory_idem (t : ℕ) (g : FormGraph) :
    optimizeForMemory t (optimizeForMemory t g) = optimizeForMemory t g := by
  obtain ⟨md, nodes, rels, adj, radj, exec, ext⟩ := g
  obtain ⟨user, comp, opt⟩ := ext
  have hn : (nodes.map (fun p => (p.1, memoryNodeStrip p.2))).map
      (fun p => (p.1, memoryNodeStrip p.2)) =
      nodes.map (fun p => (p.1, memoryNodeStrip p.2)) := by
    rw [List.map_map]
    refine List.map_congr_left ?_
    intro p _
    show (p.1, memoryNodeStrip (memoryNodeStrip p.2)) = (p.1, memoryNodeStrip p.2)
    rw [memoryNodeStrip_idem]
  have hr : (rels.map (fun p => (p.1, memoryRelStrip p.2))).map
      (fun p => (p.1, memoryRelStrip p.2)) =
      rels.map (fun p => (p.1, memoryRelStrip p.2)) := by
    rw [List.map_map]
    refine List.map_congr_left ?_
    intro p _
    show (p.1, memoryRelStrip (memoryRelStrip p.2)) = (p.1, memoryRelStrip p.2)
    rw [memoryRelStrip_idem]
  show FormGraph.mk md
      ((nodes.map (fun p => (p.1, memoryNodeStrip p.2))).map
        (fun p => (p.1, memoryNodeStrip p.2)))
      ((rels.map (fun p => (p.1, memoryRelStrip p.2))).map
        (fun p => (p.1, memoryRelStrip p.2)))
      adj radj exec ⟨user, comp, some ⟨"memory", true, t⟩⟩ =
    FormGraph.mk md (nodes.map (fun p => (p.1, memoryNodeStrip p.2)))
      (rels.map (fun p => (p.1, memoryRelStrip p.2))) adj radj exec
      ⟨user, comp, some ⟨"memory", true, t⟩⟩
  rw [hn, hr]

lemma balancedNodeStrip_idem (node : FormNode) :
    balancedNodeStrip (balancedNodeStrip node) = balancedNodeStrip node := by
  obtain ⟨i, ty, lb, ds, data, pos, ct, ex⟩ := node
  obtain ⟨v, c, w, pr, st⟩ := data
  by_cases h1 : jsIsOne c = true <;> by_cases h2 : ty = NodeType.condition <;>
    by_cases h3 : ty = NodeType.formula <;>
      simp [balancedNodeStrip, jsIsOne_none, h1, h2, h3]

lemma optimizeBalanced_idem (t : ℕ) (g : FormGraph) :
    optimizeBalanced t (optimizeBalanced t g) = optimizeBalanced t g := by
  obtain ⟨md, nodes, rels, adj, radj, exec, ext⟩ := g
  obtain ⟨user, comp, opt⟩ := ext
  have hn : (nodes.map (fun p => (p.1, balancedNodeStrip p.2))).map
      (fun p => (p.1, balancedNodeStrip p.2)) =
      nodes.map (fun p => (p.1, balancedNodeStrip p.2)) := by
    rw [List.map_map]
    refine List.map_congr_left ?_
    intro p _
    show (p.1, balancedNodeStrip (balancedNodeStrip p.2)) = (p.1, balancedNodeStrip p.2)
    rw [balancedNodeStrip_idem]
  show FormGraph.mk md
      ((nodes.map (fun p => (p.1, balancedNodeStrip p.2))).map
        (fun p => (p.1, balancedNodeStrip p.2)))
      rels
      ((adj.map (fun p => (p.1, speedSortTargets rels p.1 p.2))).map
        (fun p => (p.1, speedSortTargets rels p.1 p.2)))
      radj exec ⟨user, comp, some ⟨"balanced", true, t⟩⟩ =
    FormGraph.mk md (nodes.map (fun p => (p.1, balancedNodeStrip p.2))) rels
      (adj.map (fun p => (p.1, speedSortTargets rels p.1 p.2))) radj exec
      ⟨user, comp, some ⟨"balanced", true, t⟩⟩
  rw [hn, speedAdj_idem]

/-- C9 (amended): the timestamp stamped into `extensions.optimization`
breaks the literal idempotence claim; once the clock reading is held
fixed every optimization mode is idempotent: re-optimizing an optimized
graph with the same mode and timestamp reproduces it exactly, so a second
real application differs only in `extensions.optimization.timestamp`. -/
theorem c9_amended (g : FormGraph) (m : OptimizationMode) (t : ℕ) :
    optimizeForExecution (optimizeForExecution g m t) m t =
      optimizeForExecution g m t := by
  cases m with
  | speed => exact optimizeForSpeed_idem t g
  | memory => exact optimizeForMemory_idem t g
  | balanced => exact optimizeBalanced_idem t g

/-! ## C10 artifacts -/

/-- A single formula node without an expression: each evaluation throws,
recording a `node_execution` error in the instance state, but nothing
changes the state map, so the run reaches a fixed point after one pass. -/
def docFormulaNoExpr : FormFile :=
  { metadata := exMetadata,
    nodes := [{ id := "f", type := .formula, label := "f" }],
    relations := [],
    execution := some { max_iterations := some 5, mode := some .sequential } }

def graphFormulaNoExpr : FormGraph := compile 0 docFormulaNoExpr

instance {ε α : Type} [DecidableEq ε] [DecidableEq α] : DecidableEq (Except ε α) :=
  fun a b =>
    match a, b with
    | .ok x, .ok y =>
      if h : x = y then .isTrue (congrArg Except.ok h)
      else .isFalse (fun hh => h (Except.ok.inj hh))
    | .error x, .error y =>
      if h : x = y then .isTrue (congrArg Except.error h)
      else .isFalse (fun hh => h (Except.error.inj hh))
    | .ok _, .error _ => .isFalse (fun hh => Except.noConfusion hh)
    | .error _, .ok _ => .isFalse (fun hh => Except.noConfusion hh)

/-- The instance state in which that run terminates. -/
def stFormulaRun : ExecSt :=
  match runMode zeroWorld (mkEnv graphFormulaNoExpr) ExecutionMode.sequential
      (initializeExecution zeroWorld graphFormulaNoExpr []) with
  | .ok st => st
  | .error e => e.2

/-- C10: when the scheduler returns normally (a fixed point was reached),
`execute` builds the result with `success = true` and `errors = none`,
even if node-evaluation errors were recorded in the instance state during
the run; conversely, any result that exposes an error list has
`success = false`. -/
theorem c10_confirmed (w : World) (env : ExecEnv) (inputs : List (String × Value))
    (config : Option ExecutionConfig) (stFin : ExecSt)
    (h : runMode w env ((config.bind ExecutionConfig.mode).getD env.graph.execution.mode)
          (initializeExecution w env.graph inputs) = .ok stFin) :
    ((execute w env inputs config).success = true ∧
      (execute w env inputs config).errors = none) ∧
    ∀ (w2 : World) (env2 : ExecEnv) (inputs2 : List (String × Value))
      (config2 : Option ExecutionConfig),
      (execute w2 env2 inputs2 config2).errors ≠ none →
        (execute w2 env2 inputs2 config2).success = false := by
  constructor
  · simp only [execute]
    rw [h]
    exact ⟨rfl, rfl⟩
  · intro w2 env2 inputs2 config2 hne
    revert hne
    simp only [execute]
    cases hrm : runMode w2 env2 ((config2.bind ExecutionConfig.mode).getD
        env2.graph.execution.mode) (initializeExecution w2 env2.graph inputs2) with
    | ok st2 => intro hne; exact absurd rfl hne
    | error e =>
      obtain ⟨msg, st2⟩ := e
      intro _
      rfl

/-- In the witness run, the scheduler returned normally with a nonempty
recorded error list, and the result hides it: `success = true`,
`errors = none`. -/
theorem c10_confirmed_witness :
    stFormulaRun.errors ≠ [] ∧
    (execute zeroWorld (mkEnv graphFormulaNoExpr) [] none).success = true ∧
    (execute zeroWorld (mkEnv graphFormulaNoExpr) [] none).errors = none :=
  ⟨by decide,
   (c10_confirmed zeroWorld (mkEnv graphFormulaNoExpr) [] none stFormulaRun (by decide)).1⟩

/-! ## C3 artifacts -/

def graphAlternating : FormGraph := compile 0 docAlternating

/-- The error the scheduler's catch block records for a thrown loop
error. -/
def schedulerError (msg : String) (ts : ℕ) : ExecError :=
  { type := .execution_error, message := msg, nodeId := none, timestamp := ts }

/-- A fold preserves any invariant its step preserves. -/
lemma foldl_preserve {α β : Type} (f : β → α → β) (P : β → Prop)
    (hf : ∀ b a, P b → P (f b a)) :
    ∀ (l : List α) (b : β), P b → P (l.foldl f b) := by
  intro l
  induction l with
  | nil => intro b hb; exact hb
  | cons x xs ih => intro b hb; exact ih (f b x) (hf b x hb)

lemma evaluateNode_iter (w : World) (env : ExecEnv) (st : ExecSt) (node : FormNode) :
    (evaluateNode w env st node).2.currentIteration = st.currentIteration := by
  unfold evaluateNode
  split <;> rfl

lemma processOneNode_iter (w : World) (env : ExecEnv) (st : ExecSt) (nodeId : String) :
    (processOneNode w env st nodeId).2.currentIteration = st.currentIteration := by
  unfold processOneNode
  cases halg : alGet env.graph.nodes nodeId with
  | none => rfl
  | some node =>
    dsimp only
    have hev := evaluateNode_iter w env (dateNow w st).2 node
    rcases hEq : evaluateNode w env (dateNow w st).2 node with ⟨res, st'⟩
    rw [hEq] at hev
    cases res with
    | ok v =>
      dsimp only
      split <;> exact hev
    | error m => exact hev

lemma seqPassBody_iter (w : World) (env : ExecEnv) (st : ExecSt) :
    (seqPassBody w env st).2.currentIteration = st.currentIteration + 1 := by
  unfold seqPassBody
  refine foldl_preserve _ (fun acc : Bool × ExecSt => acc.2.currentIteration = st.currentIteration + 1)
    ?_ (getProcessingOrder env.graph) _ rfl
  intro acc nodeId hacc
  show (processOneNode w env acc.2 nodeId).2.currentIteration = st.currentIteration + 1
  rw [processOneNode_iter]
  exact hacc

lemma parPhase1_iter (w : World) (env : ExecEnv) (st : ExecSt) (levelNodes : List String) :
    (parPhase1 w env st levelNodes).2.currentIteration = st.currentIteration := by
  unfold parPhase1
  refine foldl_preserve _
    (fun acc : List (String × ParOutcome) × ExecSt =>
      acc.2.currentIteration = st.currentIteration)
    ?_ levelNodes _ rfl
  intro acc nodeId hacc
  cases halg : alGet env.graph.nodes nodeId with
  | none => exact hacc
  | some node =>
    dsimp only
    have hev := evaluateNode_iter w env (dateNow w acc.2).2 node
    rcases hEq : evaluateNode w env (dateNow w acc.2).2 node with ⟨res, st'⟩
    rw [hEq] at hev
    cases res with
    | ok v => exact hev.trans hacc
    | error m => exact hev.trans hacc

lemma parPhase2_iter (w : World) (st : ExecSt) (results : List (String × ParOutcome)) :
    (parPhase2 w st results).2.currentIteration = st.currentIteration := by
  unfold parPhase2
  refine foldl_preserve _
    (fun acc : List (String × ParOutcome × ℤ) × ExecSt =>
      acc.2.currentIteration = st.currentIteration)
    ?_ results _ rfl
  intro acc r hacc
  rcases r with ⟨nodeId, out⟩
  cases out with
  | missing => exact hacc
  | ok prev v s1 => exact hacc
  | failed m => exact hacc

lemma parPhase3_iter (w : World) (env : ExecEnv) (st : ExecSt)
    (results : List (String × ParOutcome × ℤ)) :
    (parPhase3 w env st results).2.currentIteration = st.currentIteration := by
  unfold parPhase3
  refine foldl_preserve _ (fun acc : Bool × ExecSt => acc.2.currentIteration = st.currentIteration)
    ?_ results _ rfl
  intro acc r hacc
  rcases r with ⟨nodeId, out, dur⟩
  cases out with
  | missing => exact hacc
  | failed m => exact hacc
  | ok prev v s1 =>
    dsimp only
    split
    · split <;> exact hacc
    · exact hacc

lemma parPassBody_iter (w : World) (env : ExecEnv) (st : ExecSt) :
    (parPassBody w env st).2.currentIteration = st.currentIteration + 1 := by
  unfold parPassBody
  refine foldl_preserve _ (fun acc : Bool × ExecSt => acc.2.currentIteration = st.currentIteration + 1)
    ?_ (groupNodesByDependencyLevel env.graph) _ rfl
  intro acc levelNodes hacc
  show (parPhase3 w env _ _).2.currentIteration = st.currentIteration + 1
  rw [parPhase3_iter, parPhase2_iter, parPhase1_iter]
  exact hacc

lemma processCycleLoop_iter (w : World) (env : ExecEnv) (nodeIds : List String) :
    ∀ (fuel : ℕ) (hasChanges : Bool) (st : ExecSt),
      (processCycleLoop w env nodeIds fuel hasChanges st).2.currentIteration =
        st.currentIteration := by
  intro fuel
  induction fuel with
  | zero => intro hc st; rfl
  | succ n ih =>
    intro hc st
    rw [processCycleLoop]
    have hround : ((nodeIds.foldl (fun (acc : Bool × ExecSt) nodeId =>
        let r := processOneNode w env acc.2 nodeId
        (acc.1 || r.1, r.2)) (false, st)).2).currentIteration = st.currentIteration := by
      refine foldl_preserve _
        (fun acc : Bool × ExecSt => acc.2.currentIteration = st.currentIteration)
        ?_ nodeIds _ rfl
      intro acc nodeId hacc
      show (processOneNode w env acc.2 nodeId).2.currentIteration = st.currentIteration
      rw [processOneNode_iter]
      exact hacc
    dsimp only
    split
    · exact (ih _ _).trans hround
    · exact hround

lemma processCycle_iter (w : World) (env : ExecEnv) (st : ExecSt) (nodeIds : List String) :
    (processCycle w env st nodeIds).2.currentIteration = st.currentIteration :=
  processCycleLoop_iter w env nodeIds 10 false st

lemma hybridPassBody_iter (w : World) (env : ExecEnv) (st : ExecSt) :
    (hybridPassBody w env st).2.currentIteration = st.currentIteration + 1 := by
  unfold hybridPassBody
  refine foldl_preserve _ (fun acc : Bool × ExecSt => acc.2.currentIteration = st.currentIteration + 1)
    ?_ (findStronglyConnectedComponents env.graph) _ rfl
  intro acc component hacc
  rcases component with _ | ⟨a, _ | ⟨b, rest⟩⟩
  · show (processCycle w env acc.2 []).2.currentIteration = st.currentIteration + 1
    rw [processCycle_iter]; exact hacc
  · show (processOneNode w env acc.2 a).2.currentIteration = st.currentIteration + 1
    rw [processOneNode_iter]; exact hacc
  · show (processCycle w env acc.2 (a :: b :: rest)).2.currentIteration =
      st.currentIteration + 1
    rw [processCycle_iter]; exact hacc

lemma initializeExecution_iter (w : World) (g : FormGraph) (inputs : List (String × Value)) :
    (initializeExecution w g inputs).currentIteration = 0 := by
  unfold initializeExecution
  dsimp only
  refine foldl_preserve _ (fun st : ExecSt => st.currentIteration = 0) ?_ g.nodes _ ?_
  · intro st q h
    dsimp only
    split
    · exact h
    · exact h
  · refine foldl_preserve _ (fun st : ExecSt => st.currentIteration = 0) ?_ inputs _ rfl
    intro st q h
    exact h

/-- Every `execLoop` run (entered below the cap) ends in a normal state,
a timeout throw, or a max-iterations throw whose state's iteration
counter equals the cap exactly. -/
lemma execLoop_classify (w : World) (passBody : ExecSt → Bool × ExecSt)
    (maxIterations timeout localStart : ℕ)
    (hpass : ∀ st, (passBody st).2.currentIteration = st.currentIteration + 1) :
    ∀ (fuel : ℕ) (hasChanges : Bool) (st : ExecSt),
      st.currentIteration ≤ maxIterations →
      (∃ stOut, execLoop w passBody maxIterations timeout localStart fuel hasChanges st =
          .ok stOut) ∨
      (∃ stE, execLoop w passBody maxIterations timeout localStart fuel hasChanges st =
          .error (timeoutMessage timeout, stE)) ∨
      (∃ stE, execLoop w passBody maxIterations timeout localStart fuel hasChanges st =
          .error (maxIterationsMessage maxIterations, stE) ∧
        stE.currentIteration = maxIterations) := by
  intro fuel
  induction fuel with
  | zero =>
    intro hc st hle
    rw [execLoop]
    by_cases hge : st.currentIteration ≥ maxIterations
    · right; right
      exact ⟨st, by rw [if_pos hge], le_antisymm hle hge⟩
    · left
      exact ⟨st, by rw [if_neg hge]⟩
  | succ n ih =>
    intro hc st hle
    rw [execLoop]
    by_cases hcond : hc = true ∧ st.currentIteration < maxIterations
    · rw [if_pos hcond]
      dsimp only
      by_cases htime : ((dateNow w st).1 : ℤ) - (localStart : ℤ) > (timeout : ℤ)
      · rw [if_pos htime]
        right; left
        exact ⟨(dateNow w st).2, rfl⟩
      · rw [if_neg htime]
        apply ih
        rw [hpass]
        exact Nat.succ_le_of_lt hcond.2
    · rw [if_neg hcond]
      by_cases hge : st.currentIteration ≥ maxIterations
      · rw [if_pos hge]
        right; right
        exact ⟨st, rfl, le_antisymm hle hge⟩
      · rw [if_neg hge]
        left
        exact ⟨st, rfl⟩

/-- Mode dispatch: every scheduler run is classified as in
`execLoop_classify`, with the compiled cap and timeout. -/
lemma runMode_classify (w : World) (env : ExecEnv) (mode : ExecutionMode) (st0 : ExecSt)
    (h0 : st0.currentIteration = 0) :
    (∃ stOut, runMode w env mode st0 = .ok stOut) ∨
    (∃ stE, runMode w env mode st0 = .error (timeoutMessage (effTimeout env.graph), stE)) ∨
    (∃ stE, runMode w env mode st0 =
        .error (maxIterationsMessage (effMaxIterations env.graph), stE) ∧
      stE.currentIteration = effMaxIterations env.graph) := by
  have hle : (dateNow w st0).2.currentIteration ≤ effMaxIterations env.graph := by
    show st0.currentIteration ≤ effMaxIterations env.graph
    rw [h0]
    exact Nat.zero_le _
  have hseq := execLoop_classify w (seqPassBody w env) (effMaxIterations env.graph)
    (effTimeout env.graph) ((dateNow w st0).1) (fun st => seqPassBody_iter w env st)
    (effMaxIterations env.graph + 1) true (dateNow w st0).2 hle
  have hpar := execLoop_classify w (parPassBody w env) (effMaxIterations env.graph)
    (effTimeout env.graph) ((dateNow w st0).1) (fun st => parPassBody_iter w env st)
    (effMaxIterations env.graph + 1) true (dateNow w st0).2 hle
  have hhyb := execLoop_classify w (hybridPassBody w env) (effMaxIterations env.graph)
    (effTimeout env.graph) ((dateNow w st0).1) (fun st => hybridPassBody_iter w env st)
    (effMaxIterations env.graph + 1) true (dateNow w st0).2 hle
  cases mode with
  | sequential => exact hseq
  | parallel => exact hpar
  | adaptive =>
    have hRM : runMode w env ExecutionMode.adaptive st0 = executeAdaptive w env st0 := rfl
    rw [hRM]
    unfold executeAdaptive
    dsimp only
    split
    · exact hseq
    · split
      · exact hpar
      · exact hhyb

/-- C3 (corrected): every call to `execute` terminates in exactly the
shapes the code produces: success with `errors = none`; or failure whose
error list is the recorded node errors followed by ONE scheduler error of
type `execution_error` (not `execution_timeout` / `infinite_loop`), whose
message is either the timeout message or the max-iterations message; in
the latter case `metrics.iterationsCompleted` equals the iteration cap. -/
theorem c3_amended (w : World) (env : ExecEnv) (inputs : List (String × Value))
    (config : Option ExecutionConfig) :
    ((execute w env inputs config).success = true ∧
      (execute w env inputs config).errors = none) ∨
    ((execute w env inputs config).success = false ∧ ∃ prior ts,
      (execute w env inputs config).errors =
        some (prior ++ [schedulerError (timeoutMessage (effTimeout env.graph)) ts])) ∨
    ((execute w env inputs config).success = false ∧ ∃ prior ts,
      (execute w env inputs config).errors =
        some (prior ++ [schedulerError (maxIterationsMessage (effMaxIterations env.graph)) ts]) ∧
      (execute w env inputs config).metrics.iterationsCompleted =
        effMaxIterations env.graph) := by
  rcases runMode_classify w env ((config.bind ExecutionConfig.mode).getD
      env.graph.execution.mode) (initializeExecution w env.graph inputs)
      (initializeExecution_iter w env.graph inputs) with
    ⟨stOut, hok⟩ | ⟨stE, herr⟩ | ⟨stE, herr, hiter⟩
  · left
    simp only [execute]
    rw [hok]
    exact ⟨rfl, rfl⟩
  · right; left
    simp only [execute]
    rw [herr]
    exact ⟨rfl, stE.errors, w stE.clock, rfl⟩
  · right; right
    simp only [execute]
    rw [herr]
    refine ⟨rfl, stE.errors, w stE.clock, rfl, ?_⟩
    show stE.currentIteration = effMaxIterations env.graph
    exact hiter

/-- C3 counterexample artifact: on the alternating document the iteration
cap fires, yet the single reported error has type `execution_error` (and
the max-iterations message), not `infinite_loop`; `iterationsCompleted`
does equal `max_iterations = 5`. -/
theorem c3_counterexample :
    (execute zeroWorld (mkEnv graphAlternating) [] none).success = false ∧
    (execute zeroWorld (mkEnv graphAlternating) [] none).metrics.iterationsCompleted = 5 ∧
    ((execute zeroWorld (mkEnv graphAlternating) [] none).errors.getD []).map
      ExecError.type = [.execution_error] ∧
    ((execute zeroWorld (mkEnv graphAlternating) [] none).errors.getD []).map
      ExecError.message = [maxIterationsMessage 5] := by
  decide

/-! ## C6 artifacts -/

/-- A world in which the wall clock jumps far past the timeout right
before the second dependency level of the first pass. -/
def w6 : World := fun n => if n ≥ 5 then 1000000 else 0

def exCausesRel (i s t : String) : FormRelation :=
  { id := i, type := .causes, source := s, target := t }

/-- Two concept nodes `a → b` (causes), executed in parallel mode:
level 0 is `[a]`, level 1 is `[b]`. -/
def docCausesChain : FormFile :=
  { metadata := exMetadata,
    nodes := [exConceptNode "a" (some (.num (qvInt 1))), exConceptNode "b" none],
    relations := [exCausesRel "r1" "a" "b"],
    execution := some { max_iterations := some 5, mode := some .parallel } }

def graphCausesChain : FormGraph := compile 0 docCausesChain

/-- One pass-boundary step of the scheduler loop: the boundary
`Date.now()` read followed by one whole pass. -/
def passStep (w : World) (pass : ExecSt → Bool × ExecSt) (st : ExecSt) : ExecSt :=
  (pass (dateNow w st).2).2

/-- The state after `k` whole passes (each preceded by its boundary
clock read). -/
def iterPasses (w : World) (pass : ExecSt → Bool × ExecSt) : ℕ → ExecSt → ExecSt
  | 0, st => st
  | k + 1, st => iterPasses w pass k (passStep w pass st)

lemma string_data_append (s t : String) : (s ++ t).data = s.data ++ t.data := by
  cases s; cases t; rfl

lemma timeoutMessage_ne_maxIterationsMessage (a b : ℕ) :
    timeoutMessage a ≠ maxIterationsMessage b := by
  intro h
  have h2 := congrArg (fun s => s.data.head?) h
  simp only [timeoutMessage, maxIterationsMessage, string_data_append] at h2
  simp at h2

/-- A loop run that throws the timeout error does so only at a pass
boundary: the thrown state is the initial state advanced by some number
of whole passes (plus the boundary clock read that detected the
timeout). -/
lemma execLoop_timeout_state (w : World) (pass : ExecSt → Bool × ExecSt)
    (maxIterations timeout localStart : ℕ) :
    ∀ (fuel : ℕ) (hc : Bool) (st stE : ExecSt),
      execLoop w pass maxIterations timeout localStart fuel hc st =
        .error (timeoutMessage timeout, stE) →
      ∃ k, stE = (dateNow w (iterPasses w pass k st)).2 := by
  intro fuel
  induction fuel with
  | zero =>
    intro hc st stE h
    rw [execLoop] at h
    split at h
    · simp only [Except.error.injEq, Prod.mk.injEq] at h
      exact absurd h.1.symm (timeoutMessage_ne_maxIterationsMessage timeout maxIterations)
    · exact Except.noConfusion h
  | succ n ih =>
    intro hc st stE h
    rw [execLoop] at h
    split at h
    · dsimp only at h
      split at h
      · simp only [Except.error.injEq, Prod.mk.injEq] at h
        exact ⟨0, h.2.symm⟩
      · obtain ⟨k, hk⟩ := ih _ _ _ h
        exact ⟨k + 1, hk⟩
    · split at h
      · simp only [Except.error.injEq, Prod.mk.injEq] at h
        exact absurd h.1.symm (timeoutMessage_ne_maxIterationsMessage timeout maxIterations)
      · exact Except.noConfusion h

/-- C6 counterexample artifact: in the `w6` run of the parallel-mode
`a → b` chain, the clock already reads 1000000 (far past start + 30000ms)
when level `[b]` begins, yet `b` is still executed in that same pass —
its trace step carries timestamp 1000000 — and the timeout error is
raised only at the next pass boundary.  The trace and the partial state
(with `b` updated) survive into the result. -/
theorem c6_counterexample :
    (execute w6 (mkEnv graphCausesChain) [] none).success = false ∧
    ((execute w6 (mkEnv graphCausesChain) [] none).errors.getD []).map
      ExecError.message = [timeoutMessage 30000] ∧
    (execute w6 (mkEnv graphCausesChain) [] none).executionTrace.map
      ExecutionStep.nodeId = ["b"] ∧
    (execute w6 (mkEnv graphCausesChain) [] none).executionTrace.map
      ExecutionStep.timestamp = [1000000] ∧
    (execute w6 (mkEnv graphCausesChain) [] none).metrics.iterationsCompleted = 1 ∧
    stateGet (execute w6 (mkEnv graphCausesChain) [] none).finalState "b" =
      .num (qvInt 1) := by
  decide

/-- C6 (amended): the scheduler compares elapsed time against the timeout
only at pass boundaries (never at a level boundary inside a pass): a run
that fails with the timeout error was stopped in a state reached by some
number of WHOLE passes of its mode's pass body from the initialized
state; and the returned result preserves that state's trace and partial
state, exposing the timeout as the final `execution_error`. -/
theorem c6_amended (w : World) (env : ExecEnv) (inputs : List (String × Value))
    (config : Option ExecutionConfig) (stE : ExecSt)
    (h : runMode w env ((config.bind ExecutionConfig.mode).getD env.graph.execution.mode)
          (initializeExecution w env.graph inputs) =
        .error (timeoutMessage (effTimeout env.graph), stE)) :
    (∃ pass ∈ [seqPassBody w env, parPassBody w env, hybridPassBody w env], ∃ k,
        stE = (dateNow w (iterPasses w pass k
          (dateNow w (initializeExecution w env.graph inputs)).2)).2) ∧
    (execute w env inputs config).success = false ∧
    (execute w env inputs config).executionTrace = stE.executionTrace ∧
    (execute w env inputs config).finalState = stE.executionState ∧
    (execute w env inputs config).errors =
      some (stE.errors ++
        [schedulerError (timeoutMessage (effTimeout env.graph)) (w stE.clock)]) := by
  constructor
  · cases hmode : (config.bind ExecutionConfig.mode).getD env.graph.execution.mode with
    | sequential =>
      rw [hmode] at h
      obtain ⟨k, hk⟩ := execLoop_timeout_state w (seqPassBody w env)
        (effMaxIterations env.graph) (effTimeout env.graph)
        ((dateNow w (initializeExecution w env.graph inputs)).1)
        (effMaxIterations env.graph + 1) true
        (dateNow w (initializeExecution w env.graph inputs)).2 stE h
      exact ⟨seqPassBody w env, by simp, k, hk⟩
    | parallel =>
      rw [hmode] at h
      obtain ⟨k, hk⟩ := execLoop_timeout_state w (parPassBody w env)
        (effMaxIterations env.graph) (effTimeout env.graph)
        ((dateNow w (initializeExecution w env.graph inputs)).1)
        (effMaxIterations env.graph + 1) true
        (dateNow w (initializeExecution w env.graph inputs)).2 stE h
      exact ⟨parPassBody w env, by simp, k, hk⟩
    | adaptive =>
      rw [hmode] at h
      have h' : executeAdaptive w env (initializeExecution w env.graph inputs) =
          .error (timeoutMessage (effTimeout env.graph), stE) := h
      unfold executeAdaptive at h'
      dsimp only at h'
      split at h'
      · obtain ⟨k, hk⟩ := execLoop_timeout_state w (seqPassBody w env)
          (effMaxIterations env.graph) (effTimeout env.graph)
          ((dateNow w (initializeExecution w env.graph inputs)).1)
          (effMaxIterations env.graph + 1) true
          (dateNow w (initializeExecution w env.graph inputs)).2 stE h'
        exact ⟨seqPassBody w env, by simp, k, hk⟩
      · split at h'
        · obtain ⟨k, hk⟩ := execLoop_timeout_state w (parPassBody w env)
            (effMaxIterations env.graph) (effTimeout env.graph)
            ((dateNow w (initializeExecution w env.graph inputs)).1)
            (effMaxIterations env.graph + 1) true
            (dateNow w (initializeExecution w env.graph inputs)).2 stE h'
          exact ⟨parPassBody w env, by simp, k, hk⟩
        · obtain ⟨k, hk⟩ := execLoop_timeout_state w (hybridPassBody w env)
            (effMaxIterations env.graph) (effTimeout env.graph)
            ((dateNow w (initializeExecution w env.graph inputs)).1)
            (effMaxIterations env.graph + 1) true
            (dateNow w (initializeExecution w env.graph inputs)).2 stE h'
          exact ⟨hybridPassBody w env, by simp, k, hk⟩
  · simp only [execute]
    rw [h]
    exact ⟨rfl, rfl, rfl, rfl⟩

/-- The state carried by the timeout throw of the `w6` run. -/
def stTimeoutRun : ExecSt :=
  match runMode w6 (mkEnv graphCausesChain)
      (((none : Option ExecutionConfig).bind ExecutionConfig.mode).getD
        graphCausesChain.execution.mode)
      (initializeExecution w6 graphCausesChain []) with
  | .ok st => st
  | .error e => e.2

theorem c6_amended_witness :
    (∃ pass ∈ [seqPassBody w6 (mkEnv graphCausesChain),
        parPassBody w6 (mkEnv graphCausesChain),
        hybridPassBody w6 (mkEnv graphCausesChain)], ∃ k,
        stTimeoutRun = (dateNow w6 (iterPasses w6 pass k
          (dateNow w6 (initializeExecution w6 graphCausesChain [])).2)).2) ∧
    (execute w6 (mkEnv graphCausesChain) [] none).success = false ∧
    (execute w6 (mkEnv graphCausesChain) [] none).executionTrace =
      stTimeoutRun.executionTrace ∧
    (execute w6 (mkEnv graphCausesChain) [] none).finalState =
      stTimeoutRun.executionState ∧
    (execute w6 (mkEnv graphCausesChain) [] none).errors =
      some (stTimeoutRun.errors ++
        [schedulerError (timeoutMessage (effTimeout graphCausesChain))
          (w6 stTimeoutRun.clock)]) :=
  c6_amended w6 (mkEnv graphCausesChain) [] none stTimeoutRun (by decide)

/-! ## C4 artifacts -/

lemma foldl_preserve_mem {α β : Type} (f : β → α → β) (P : β → Prop) :
    ∀ (l : List α), (∀ b a, a ∈ l → P b → P (f b a)) → ∀ b, P b → P (l.foldl f b) := by
  intro l
  induction l with
  | nil => intro _ b hb; exact hb
  | cons x xs ih =>
    intro hf b hb
    exact ih (fun b a ha hb => hf b a (List.mem_cons_of_mem _ ha) hb) (f b x)
      (hf b x (List.mem_cons_self _ _) hb)

lemma evaluateNode_execState (w : World) (env : ExecEnv) (st : ExecSt) (node : FormNode) :
    (evaluateNode w env st node).2.executionState = st.executionState := by
  unfold evaluateNode
  split <;> rfl

lemma parPhase1_execState (w : World) (env : ExecEnv) (st : ExecSt)
    (levelNodes : List String) :
    (parPhase1 w env st levelNodes).2.executionState = st.executionState := by
  unfold parPhase1
  refine foldl_preserve _
    (fun acc : List (String × ParOutcome) × ExecSt =>
      acc.2.executionState = st.executionState)
    ?_ levelNodes _ rfl
  intro acc nodeId hacc
  cases halg : alGet env.graph.nodes nodeId with
  | none => exact hacc
  | some node =>
    dsimp only
    have hev := evaluateNode_execState w env (dateNow w acc.2).2 node
    rcases hEq : evaluateNode w env (dateNow w acc.2).2 node with ⟨res, st'⟩
    rw [hEq] at hev
    cases res with
    | ok v => exact hev.trans hacc
    | error m => exact hev.trans hacc

lemma parPhase1_keys (w : World) (env : ExecEnv) (st : ExecSt)
    (levelNodes : List String) :
    ∀ r ∈ (parPhase1 w env st levelNodes).1, r.1 ∈ levelNodes := by
  unfold parPhase1
  refine foldl_preserve_mem _
    (fun acc : List (String × ParOutcome) × ExecSt => ∀ r ∈ acc.1, r.1 ∈ levelNodes)
    levelNodes ?_ _ (by intro r hr; simp at hr)
  intro acc a ha hacc
  cases halg : alGet env.graph.nodes a with
  | none =>
    intro r hr
    rcases List.mem_append.mp hr with h | h
    · exact hacc r h
    · simp at h; rw [h]; exact ha
  | some node =>
    dsimp only
    rcases hEq : evaluateNode w env (dateNow w acc.2).2 node with ⟨res, st'⟩
    cases res with
    | ok v =>
      intro r hr
      rcases List.mem_append.mp hr with h | h
      · exact hacc r h
      · simp at h; rw [h]; exact ha
    | error m =>
      intro r hr
      rcases List.mem_append.mp hr with h | h
      · exact hacc r h
      · simp at h; rw [h]; exact ha

lemma parPhase2_execState (w : World) (st : ExecSt)
    (results : List (String × ParOutcome)) :
    (parPhase2 w st results).2.executionState = st.executionState := by
  unfold parPhase2
  refine foldl_preserve _
    (fun acc : List (String × ParOutcome × ℤ) × ExecSt =>
      acc.2.executionState = st.executionState)
    ?_ results _ rfl
  intro acc r hacc
  rcases r with ⟨nodeId, out⟩
  cases out with
  | missing => exact hacc
  | ok prev v s1 => exact hacc
  | failed m => exact hacc

lemma parPhase2_keys (w : World) (st : ExecSt) (results : List (String × ParOutcome)) :
    ∀ r ∈ (parPhase2 w st results).1, ∃ q ∈ results, r.1 = q.1 := by
  unfold parPhase2
  refine foldl_preserve_mem _
    (fun acc : List (String × ParOutcome × ℤ) × ExecSt =>
      ∀ r ∈ acc.1, ∃ q ∈ results, r.1 = q.1)
    results ?_ _ (by intro r hr; simp at hr)
  intro acc a ha hacc
  rcases a with ⟨aid, out⟩
  cases out with
  | missing =>
    intro r hr
    rcases List.mem_append.mp hr with h | h
    · exact hacc r h
    · simp at h; exact ⟨(aid, .missing), ha, by rw [h]⟩
  | ok prev v s1 =>
    intro r hr
    rcases List.mem_append.mp hr with h | h
    · exact hacc r h
    · simp at h; exact ⟨(aid, .ok prev v s1), ha, by rw [h]⟩
  | failed m =>
    intro r hr
    rcases List.mem_append.mp hr with h | h
    · exact hacc r h
    · simp at h; exact ⟨(aid, .failed m), ha, by rw [h]⟩

lemma parPhase3_preserves (w : World) (env : ExecEnv) (st : ExecSt)
    (results : List (String × ParOutcome × ℤ)) (nodeId : String)
    (hres : ∀ r ∈ results, r.1 ≠ nodeId) :
    alGet (parPhase3 w env st results).2.executionState nodeId =
      alGet st.executionState nodeId := by
  unfold parPhase3
  refine foldl_preserve_mem _
    (fun acc : Bool × ExecSt =>
      alGet acc.2.executionState nodeId = alGet st.executionState nodeId)
    results ?_ _ rfl
  intro acc r hr hacc
  rcases r with ⟨rid, out, dur⟩
  cases out with
  | missing => exact hacc
  | failed m => exact hacc
  | ok prev v s1 =>
    dsimp only
    split
    · split
      · show alGet (alSet acc.2.executionState rid v) nodeId = alGet st.executionState nodeId
        rw [alGet_alSet_ne _ _ _ _ (hres (rid, .ok prev v s1, dur) hr)]
        exact hacc
      · show alGet (alSet acc.2.executionState rid v) nodeId = alGet st.executionState nodeId
        rw [alGet_alSet_ne _ _ _ _ (hres (rid, .ok prev v s1, dur) hr)]
        exact hacc
    · exact hacc

/-- A node appearing in none of the dependency levels is never evaluated
nor written by a parallel pass. -/
lemma parPassBody_preserves (w : World) (env : ExecEnv) (st : ExecSt) (nodeId : String)
    (hnot : ∀ level ∈ groupNodesByDependencyLevel env.graph, nodeId ∉ level) :
    alGet (parPassBody w env st).2.executionState nodeId =
      alGet st.executionState nodeId := by
  unfold parPassBody
  refine foldl_preserve_mem _
    (fun acc : Bool × ExecSt =>
      alGet acc.2.executionState nodeId = alGet st.executionState nodeId)
    (groupNodesByDependencyLevel env.graph) ?_ _ rfl
  intro acc levelNodes hl hacc
  have hres : ∀ r ∈ (parPhase2 w (parPhase1 w env acc.2 levelNodes).2
      (parPhase1 w env acc.2 levelNodes).1).1, r.1 ≠ nodeId := by
    intro r hr
    obtain ⟨q, hq, hqe⟩ := parPhase2_keys w _ _ r hr
    have hq1 := parPhase1_keys w env acc.2 levelNodes q hq
    intro hEq
    exact hnot levelNodes hl (by rw [← hEq, hqe]; exact hq1)
  show alGet (parPhase3 w env _ _).2.executionState nodeId = alGet st.executionState nodeId
  rw [parPhase3_preserves _ _ _ _ _ hres, parPhase2_execState, parPhase1_execState]
  exact hacc

/-- Any state property preserved by the pass body (the clock aside) holds
of the state a loop run ends in, normally or thrown. -/
lemma execLoop_preserves (w : World) (passBody : ExecSt → Bool × ExecSt)
    (maxIterations timeout localStart : ℕ) (P : ExecSt → Prop)
    (hpass : ∀ st, P st → P (passBody st).2)
    (hclock : ∀ st, P st → P (dateNow w st).2) :
    ∀ (fuel : ℕ) (hc : Bool) (st : ExecSt), P st →
      (∀ stOut, execLoop w passBody maxIterations timeout localStart fuel hc st =
        .ok stOut → P stOut) ∧
      (∀ msg stE, execLoop w passBody maxIterations timeout localStart fuel hc st =
        .error (msg, stE) → P stE) := by
  intro fuel
  induction fuel with
  | zero =>
    intro hc st hP
    rw [execLoop]
    split
    · constructor
      · intro stOut h; exact Except.noConfusion h
      · intro msg stE h
        simp only [Except.error.injEq, Prod.mk.injEq] at h
        exact h.2 ▸ hP
    · constructor
      · intro stOut h; exact (Except.ok.inj h) ▸ hP
      · intro msg stE h; exact Except.noConfusion h
  | succ n ih =>
    intro hc st hP
    rw [execLoop]
    split
    · dsimp only
      split
      · constructor
        · intro stOut h; exact Except.noConfusion h
        · intro msg stE h
          simp only [Except.error.injEq, Prod.mk.injEq] at h
          exact h.2 ▸ hclock st hP
      · exact ih _ _ (hpass _ (hclock st hP))
    · split
      · constructor
        · intro stOut h; exact Except.noConfusion h
        · intro msg stE h
          simp only [Except.error.injEq, Prod.mk.injEq] at h
          exact h.2 ▸ hP
      · constructor
        · intro stOut h; exact (Except.ok.inj h) ▸ hP
        · intro msg stE h; exact Except.noConfusion h

/-- C4 counterexample artifact: `docInfluenceCycle` passes validation
(its `{depends_on, causes, triggers}` subgraph is empty, hence
cycle-free), both modes report success, but sequential execution
propagates `a`'s value to `b` while parallel execution — whose dependency
levels, computed over the FULL adjacency, are empty because every node
has an incoming `influences` edge — never evaluates any node and leaves
`b` at its initial 0. -/
theorem c4_counterexample :
    (validate docInfluenceCycle).valid = true ∧
    detectCycles docInfluenceCycle = [] ∧
    groupNodesByDependencyLevel graphInfluenceCycle = [] ∧
    (execute zeroWorld (mkEnv graphInfluenceCycle) []
      (some { mode := some .sequential })).success = true ∧
    (execute zeroWorld (mkEnv graphInfluenceCycle) []
      (some { mode := some .parallel })).success = true ∧
    stateGet (execute zeroWorld (mkEnv graphInfluenceCycle) []
      (some { mode := some .sequential })).finalState "b" = .num (qvInt 1) ∧
    stateGet (execute zeroWorld (mkEnv graphInfluenceCycle) []
      (some { mode := some .parallel })).finalState "b" = .num (qvInt 0) := by
  decide

/-- C4 (amended): the two modes need not agree even on validated
documents, because parallel mode executes only the nodes its dependency
levels (computed from the full adjacency, not the validator's
`{depends_on, causes, triggers}` subgraph) reach: a node contained in no
level is never evaluated nor written during the whole parallel run — its
entry in the state map stays exactly as initialized, whether the run ends
normally or throws — while sequential mode processes every node of the
processing order each pass. -/
theorem c4_amended (w : World) (env : ExecEnv) (st0 : ExecSt) (nodeId : String)
    (v : Option Value)
    (hnot : ∀ level ∈ groupNodesByDependencyLevel env.graph, nodeId ∉ level)
    (hv : alGet st0.executionState nodeId = v) :
    (∀ stOut, executeParallel w env st0 = .ok stOut →
      alGet stOut.executionState nodeId = v) ∧
    (∀ msg stE, executeParallel w env st0 = .error (msg, stE) →
      alGet stE.executionState nodeId = v) := by
  have h := execLoop_preserves w (parPassBody w env) (effMaxIterations env.graph)
    (effTimeout env.graph) ((dateNow w st0).1)
    (fun st => alGet st.executionState nodeId = v)
    (fun st hP => by
      show alGet (parPassBody w env st).2.executionState nodeId = v
      rw [parPassBody_preserves w env st nodeId hnot]
      exact hP)
    (fun st hP => hP)
    (effMaxIterations env.graph + 1) true (dateNow w st0).2 hv
  exact h

/-- The normal completion state of the parallel run on the influence
cycle. -/
def stParRun : ExecSt :=
  match executeParallel zeroWorld (mkEnv graphInfluenceCycle)
      (initializeExecution zeroWorld graphInfluenceCycle []) with
  | .ok st => st
  | .error e => e.2

theorem c4_amended_witness :
    executeParallel zeroWorld (mkEnv graphInfluenceCycle)
      (initializeExecution zeroWorld graphInfluenceCycle []) = .ok stParRun ∧
    alGet stParRun.executionState "b" = some (.num (qvInt 0)) :=
  ⟨by decide,
   (c4_amended zeroWorld (mkEnv graphInfluenceCycle)
      (initializeExecution zeroWorld graphInfluenceCycle []) "b"
      (some (.num (qvInt 0))) (by decide) (by decide)).1 stParRun (by decide)⟩

end TrueForm
